import Mathlib

/-!
Verification development for the transcript/summarization core of the
youtube-tldr-chapters repository.

The TypeScript sources in `src/server/services/{youtube,analytics,api,cache}.ts`
and `src/unnamed/part_00{2,3}` are shallowly embedded below.  Conventions:

* JavaScript strings are modelled as Lean `String` / `List Char`.  All inputs of
  interest are ASCII, so the difference between UTF-16 code units and Unicode
  scalar values does not arise; character-class helpers (`\s`, `toLowerCase`,
  `trim`) are modelled on their ASCII portion and this is noted where it matters.
* JavaScript numbers: `parseInt` is modelled as the exact integer value of the
  digit run rounded to the nearest binary64-representable integer (`roundNat`:
  53-bit significand, ties to even), and `Number.prototype.toString` on such a
  value prints plain decimal below 1e21 and exponential notation from 1e21 on
  — both float behaviours the timestamp claims hinge on.  `parseFloat` results
  are kept as exact rationals with explicit NaN/∞ markers (`JSNum`); no claim
  inspects those values.
* Effectful code (network strategies, LLM providers, retried operations) is
  embedded by passing the outcome of each external call as a parameter and,
  where a claim is about which calls happen, returning an explicit trace.
* Scanning loops translated from JavaScript regexes use an explicit fuel
  argument bounded by the input length; every step consumes at least one
  character, so the fuel never runs out on the given inputs.
-/

/-! ## Basic character and list-of-character helpers -/

/-- ASCII portion of the JavaScript `\s` class / `String.prototype.trim`
whitespace set (space, tab, LF, CR, vertical tab, form feed). -/
def jsWsChar (c : Char) : Bool :=
  c = ' ' ∨ c = '\t' ∨ c = '\n' ∨ c = '\r' ∨ c = Char.ofNat 11 ∨ c = Char.ofNat 12

/-- JavaScript `String.prototype.trim` (ASCII whitespace portion). -/
def jsTrimL (cs : List Char) : List Char :=
  ((cs.dropWhile jsWsChar).reverse.dropWhile jsWsChar).reverse

/-- ASCII `toLowerCase` (non-ASCII characters are left unchanged; the inputs of
interest only need `A`-`Z`). -/
def asciiLower (c : Char) : Char :=
  if 'A' ≤ c ∧ c ≤ 'Z' then Char.ofNat (c.toNat + 32) else c

def jsLowerL (cs : List Char) : List Char := cs.map asciiLower

/-- Does `cs` start with `pat`? -/
def hasLead (pat cs : List Char) : Bool :=
  match pat, cs with
  | [], _ => true
  | _ :: _, [] => false
  | p :: ps, c :: rest => p = c && hasLead ps rest

/-- Drop a leading literal `pat`, returning the rest on success
(the building block for literal regex pieces). -/
def dropLead (pat cs : List Char) : Option (List Char) :=
  match pat, cs with
  | [], rest => some rest
  | _ :: _, [] => none
  | p :: ps, c :: rest => if p = c then dropLead ps rest else none

/-- JavaScript `String.prototype.includes` on character lists. -/
def containsSub (pat cs : List Char) : Bool :=
  match cs with
  | [] => hasLead pat []
  | _ :: rest => hasLead pat cs || containsSub pat rest

/-- JavaScript `String.prototype.indexOf` for a single character. -/
def idxOfChar (c : Char) (cs : List Char) : Option Nat :=
  match cs with
  | [] => none
  | x :: rest => if x = c then some 0 else (idxOfChar c rest).map (· + 1)

/-- `split` on a single separator character (JavaScript `"a:b".split(':')`
semantics: `""` splits to `[""]`, separators at the ends produce empty parts). -/
def splitOnCharL (sep : Char) (cs : List Char) : List (List Char) :=
  match cs with
  | [] => [[]]
  | c :: rest =>
    if c = sep then [] :: splitOnCharL sep rest
    else
      match splitOnCharL sep rest with
      | h :: t => (c :: h) :: t
      | [] => [[c]]

/-- Replace the first occurrence of `pat` (non-empty on all call sites) by
`repl`, as JavaScript `String.prototype.replace` with a string pattern. -/
def replaceFirstL (pat repl cs : List Char) : List Char :=
  match cs with
  | [] => (if hasLead pat [] then repl else [])
  | c :: rest =>
    match dropLead pat (c :: rest) with
    | some after => repl ++ after
    | none => c :: replaceFirstL pat repl rest

/-- Replace every (non-overlapping, left-to-right) occurrence of the non-empty
pattern `pat` by `repl`, as a JavaScript `replace(/pat/g, repl)` with a literal
pattern.  Fuel-driven recursion; each step consumes at least one input
character, so `fuel = cs.length` suffices. -/
def replaceAllAux (pat repl : List Char) : Nat → List Char → List Char
  | 0, cs => cs
  | fuel + 1, cs =>
    match cs with
    | [] => []
    | c :: rest =>
      match dropLead pat (c :: rest) with
      | some after => repl ++ replaceAllAux pat repl fuel after
      | none => c :: replaceAllAux pat repl fuel rest

def replaceAllL (pat repl cs : List Char) : List Char :=
  replaceAllAux pat repl cs.length cs

/-- JavaScript `String.prototype.padStart(2, '0')`. -/
def padTwo (cs : List Char) : List Char :=
  if cs.length < 2 then List.replicate (2 - cs.length) '0' ++ cs else cs

def ofList (cs : List Char) : String := String.mk cs

/-! ## JavaScript number parsing and printing

`parseInt` / `parseFloat` results are modelled exactly (`Int` / rationals); the
one float-printing behaviour a claim depends on — `Number.prototype.toString`
switching to exponential notation at 1e21 — is modelled explicitly in
`jsNumToString`. -/

def isDigitC (c : Char) : Bool := '0' ≤ c ∧ c ≤ '9'

def isHexC (c : Char) : Bool :=
  ('0' ≤ c ∧ c ≤ '9') ∨ ('a' ≤ c ∧ c ≤ 'f') ∨ ('A' ≤ c ∧ c ≤ 'F')

def digitVal (c : Char) : Nat := c.toNat - 48

def hexVal (c : Char) : Nat :=
  if '0' ≤ c ∧ c ≤ '9' then c.toNat - 48
  else if 'a' ≤ c ∧ c ≤ 'f' then c.toNat - 87
  else c.toNat - 55

/-- Value of a most-significant-first list of decimal digit characters. -/
def decValue (ds : List Char) : Nat := ds.foldl (fun acc c => 10 * acc + digitVal c) 0

/-- Value of a most-significant-first list of hexadecimal digit characters. -/
def hexValue (ds : List Char) : Nat := ds.foldl (fun acc c => 16 * acc + hexVal c) 0

/-- Least-significant-first decimal digits of `n` (fuel-driven; `fuel ≥ n`
suffices because the argument strictly decreases while positive). -/
def natDigitsRev : Nat → Nat → List Nat
  | 0, _ => []
  | fuel + 1, n => if n = 0 then [] else n % 10 :: natDigitsRev fuel (n / 10)

def digitChar (d : Nat) : Char := Char.ofNat (48 + d)

/-- Decimal rendering of a natural number (`(5).toString()` etc.). -/
def natDecimalString (n : Nat) : List Char :=
  if n = 0 then ['0'] else (natDigitsRev n n).reverse.map digitChar

/-- Decimal rendering of an integer. -/
def intDecimalString (n : Int) : List Char :=
  if n < 0 then '-' :: natDecimalString n.natAbs else natDecimalString n.natAbs

/-- Parse a non-empty run of decimal digits at the head of `cs`
(`none` = `NaN`). -/
def decRun (cs : List Char) : Option Nat :=
  let ds := cs.takeWhile isDigitC
  if ds = [] then none else some (decValue ds)

/-- Parse a non-empty run of hexadecimal digits at the head of `cs`. -/
def hexRun (cs : List Char) : Option Nat :=
  let ds := cs.takeWhile isHexC
  if ds = [] then none else some (hexValue ds)

/-- The unsigned part of `parseInt` with no radix argument: a leading `0x`/`0X`
switches to hexadecimal, otherwise a leading decimal digit run is taken;
an empty run (including a bare `0x`) is `NaN`. -/
def parseIntUnsigned (cs : List Char) : Option Nat :=
  match cs with
  | c0 :: c1 :: rest =>
    if c0 = '0' ∧ (c1 = 'x' ∨ c1 = 'X') then hexRun rest else decRun cs
  | _ => decRun cs

/-- Bit length of a natural number (`⌊log₂ m⌋ + 1` for `m ≥ 1`, `0` for `0`);
fuel-driven, `fuel ≥ m` suffices since the argument halves while positive. -/
def bitLen : Nat → Nat → Nat
  | 0, _ => 0
  | fuel + 1, m => if m = 0 then 0 else bitLen fuel (m / 2) + 1

/-- Round a natural number to the nearest binary64-representable integer:
values below `2^53` are exact; beyond, the value is rounded to a multiple of
`2^(bitLen - 53)` (53-bit significand), ties to even.  This is the rounding
`ToNumber` applies to the exact mathematical value of a numeric string, e.g.
`roundNat (10^21 - 1) = 10^21`.  Overflow to Infinity (≳ 1.8e308) is not
modelled: such magnitudes stay finite here, far beyond every bound a claim's
hypothesis admits. -/
def roundNat (m : Nat) : Nat :=
  if m < 2 ^ 53 then m
  else
    let e := bitLen m m - 53
    let q := m / 2 ^ e
    let r := m % 2 ^ e
    let q' := if 2 ^ (e - 1) < r ∨ (r = 2 ^ (e - 1) ∧ q % 2 = 1) then q + 1 else q
    q' * 2 ^ e

/-- JavaScript `parseInt(s)` (no radix argument): skip leading whitespace, an
optional sign, then a `0x` hex or decimal digit run; `none` models `NaN`.
The exact magnitude of the digit run is rounded to the nearest binary64
integer (`roundNat`), as `ToNumber` does — so e.g. 21 nines parse to exactly
1e21, not `10^21 - 1`. -/
def jsParseIntL (cs : List Char) : Option Int :=
  match cs.dropWhile jsWsChar with
  | c :: rest =>
    if c = '-' then (parseIntUnsigned rest).map (fun n => -(roundNat n : Int))
    else if c = '+' then (parseIntUnsigned rest).map (fun n => (roundNat n : Int))
    else (parseIntUnsigned (c :: rest)).map (fun n => (roundNat n : Int))
  | [] => (parseIntUnsigned []).map (fun n => (roundNat n : Int))

/-- Strip trailing zero digits (used for the mantissa of exponential
notation). -/
def stripTrailingZeros (ds : List Nat) : List Nat :=
  (ds.reverse.dropWhile (· = 0)).reverse

/-- Exponential notation of an integer, as `Number.prototype.toString` prints
magnitudes ≥ 1e21 (e.g. `1e+21`, `1.5e+22`).  The argument is already a
binary64-representable integer (`jsParseIntL` rounds with `roundNat`); the
digits printed here are the value's own decimal digits with trailing zeros
stripped, which agrees with JavaScript's shortest-roundtrip output where the
claims evaluate it (e.g. `10^21` prints `1e+21`). -/
def expString (n : Int) : List Char :=
  match (natDigitsRev n.natAbs n.natAbs).reverse with
  | [] => ['0']
  | d0 :: rest =>
    let mantissa :=
      match stripTrailingZeros rest with
      | [] => [digitChar d0]
      | r => digitChar d0 :: '.' :: r.map digitChar
    (if n < 0 then ['-'] else []) ++ mantissa ++ ('e' :: '+' :: natDecimalString rest.length)

/-- JavaScript `Number.prototype.toString` on an integral value: plain decimal
below 1e21, exponential notation from 1e21 on. -/
def jsNumToString (n : Int) : List Char :=
  if n.natAbs < 10 ^ 21 then intDecimalString n else expString n

/-! ### JavaScript numbers with NaN and infinities (for `parseFloat`) -/

/-- A JavaScript number as produced by `parseFloat` and propagated through
addition: an exact rational, NaN, or a signed infinity.  (Values are kept
exact; binary64 rounding is not modelled — no claim inspects these values.) -/
inductive JSNum where
  | num (q : ℚ)
  | nan
  | posInf
  | negInf
deriving DecidableEq

/-- JavaScript `+` on `JSNum` (the only arithmetic the embedded code needs:
`start + duration`). -/
def JSNum.add : JSNum → JSNum → JSNum
  | .num a, .num b => .num (a + b)
  | .nan, _ => .nan
  | _, .nan => .nan
  | .posInf, .negInf => .nan
  | .negInf, .posInf => .nan
  | .posInf, _ => .posInf
  | _, .posInf => .posInf
  | .negInf, _ => .negInf
  | _, .negInf => .negInf

/-- The significand/fraction/exponent part of `parseFloat` after the sign:
`digits [. digits] [e|E [sign] digits]`, needing at least one digit in the
integer-or-fraction part.  Returns the exact rational value. -/
def parseFloatMagnitude (cs : List Char) : Option ℚ :=
  let intPart := cs.takeWhile isDigitC
  let rest₁ := cs.dropWhile isDigitC
  let (fracPart, rest₂) :=
    match rest₁ with
    | '.' :: r => (r.takeWhile isDigitC, r.dropWhile isDigitC)
    | _ => ([], rest₁)
  if intPart = [] ∧ fracPart = [] then none
  else
    let base : ℚ := (decValue intPart : ℚ) + (decValue fracPart : ℚ) / (10 ^ fracPart.length : ℚ)
    let expo : Option Int :=
      match rest₂ with
      | 'e' :: r => parseExpPart r
      | 'E' :: r => parseExpPart r
      | _ => none
    match expo with
    | some e => some (base * (10 : ℚ) ^ e)
    | none => some base
where
  parseExpPart (r : List Char) : Option Int :=
    match r with
    | '-' :: r' => (decRun r').map (fun n => -(n : Int))
    | '+' :: r' => (decRun r').map (fun n => (n : Int))
    | _ => (decRun r).map (fun n => (n : Int))

/-- JavaScript `parseFloat(s)`: skip leading whitespace, optional sign,
`Infinity` or a decimal literal; anything else is NaN. -/
def jsParseFloatL (cs : List Char) : JSNum :=
  let cs := cs.dropWhile jsWsChar
  match cs with
  | '-' :: rest =>
    if hasLead "Infinity".data rest then .negInf
    else match parseFloatMagnitude rest with
      | some q => .num (-q)
      | none => .nan
  | '+' :: rest =>
    if hasLead "Infinity".data rest then .posInf
    else match parseFloatMagnitude rest with
      | some q => .num q
      | none => .nan
  | _ =>
    if hasLead "Infinity".data cs then .posInf
    else match parseFloatMagnitude cs with
      | some q => .num q
      | none => .nan

/-! ## `CacheService.generateCacheKey` (src/server/services/cache.ts) -/

/-- `generateCacheKey(videoId, language, model)` builds
``tldr:${videoId}-${language}-${model}`` (the enclosing `async` wrapper is
pure, so it is embedded as a plain function). -/
def generateCacheKey (videoId language model : String) : String :=
  "tldr:" ++ videoId ++ "-" ++ language ++ "-" ++ model

/-! ## `LLMService.normalizeTimestamp` (src/server/services/api.ts) -/

/-- One component of `normalizeTimestamp`:
`parseInt(part).toString().padStart(2, '0')` (with `NaN.toString() = "NaN"`). -/
def normTimePart (p : List Char) : List Char :=
  padTwo (match jsParseIntL p with
    | some n => jsNumToString n
    | none => ['N', 'a', 'N'])

/-- `normalizeTimestamp`: split on `:`; two parts are re-rendered as `MM:SS`,
three as `HH:MM:SS` (each part through `parseInt`/`toString`/`padStart(2,'0')`);
any other part count is returned unchanged. -/
def normalizeTimestamp (timestamp : String) : String :=
  match splitOnCharL ':' timestamp.data with
  | [p0, p1] => ofList (normTimePart p0 ++ ':' :: normTimePart p1)
  | [p0, p1, p2] =>
    ofList (normTimePart p0 ++ ':' :: normTimePart p1 ++ ':' :: normTimePart p2)
  | _ => timestamp

/-! ## `LLMService.parseUnstructuredResponse` (src/server/services/api.ts) -/

structure Chapter where
  time : String
  title : String
deriving DecidableEq

structure LLMResult where
  tldr : String
  chapters : List Chapter
deriving DecidableEq

/-- Attempt of the regex `/(\d{1,2}:\d{2}(?::\d{2})?)/` at the head of `cs`:
one or two digits (greedy, with backtracking), `:`, two digits, optionally
`:` and two more digits (greedy). -/
def timeRegexAt (cs : List Char) : Option (List Char) :=
  match tryTwoDigitStart cs with
  | some m => some m
  | none => tryOneDigitStart cs
where
  optSeconds (base : List Char) (rest : List Char) : List Char :=
    match rest with
    | ':' :: s1 :: s2 :: _ =>
      if isDigitC s1 ∧ isDigitC s2 then base ++ [':', s1, s2] else base
    | _ => base
  tryTwoDigitStart (cs : List Char) : Option (List Char) :=
    match cs with
    | d1 :: d2 :: ':' :: m1 :: m2 :: rest =>
      if isDigitC d1 ∧ isDigitC d2 ∧ isDigitC m1 ∧ isDigitC m2 then
        some (optSeconds [d1, d2, ':', m1, m2] rest)
      else none
    | _ => none
  tryOneDigitStart (cs : List Char) : Option (List Char) :=
    match cs with
    | d1 :: ':' :: m1 :: m2 :: rest =>
      if isDigitC d1 ∧ isDigitC m1 ∧ isDigitC m2 then
        some (optSeconds [d1, ':', m1, m2] rest)
      else none
    | _ => none

/-- Leftmost match of the timestamp regex in a line (`line.match(...)ⁿ[1]`;
group 1 equals the whole match here). -/
def timeRegexFirst (cs : List Char) : Option (List Char) :=
  match cs with
  | [] => none
  | _ :: rest =>
    match timeRegexAt cs with
    | some m => some m
    | none => timeRegexFirst rest

/-- Loop state of `parseUnstructuredResponse`. -/
structure PUState where
  tldr : List Char
  chapters : List Chapter
  foundTldr : Bool
  foundChapters : Bool

/-- One iteration of the `for (const line of lines)` body of
`parseUnstructuredResponse`.  The first two branches `continue`; the timestamp
branch falls through to the trailing long-line check. -/
def puStep (st : PUState) (line : List Char) : PUState :=
  let lower := jsLowerL line
  if containsSub "tldr".data lower ∨ containsSub "resumen".data lower then
    let st := { st with foundTldr := true }
    match idxOfChar ':' line with
    | some i => { st with tldr := jsTrimL (line.drop (i + 1)) }
    | none => st
  else if containsSub "chapters".data lower ∨ containsSub "capítulos".data lower then
    { st with foundChapters := true }
  else
    let st :=
      match timeRegexFirst line with
      | some time =>
        if st.foundChapters then
          let title := jsTrimL ((replaceFirstL time [] line).dropWhile
            (fun c => jsWsChar c ∨ c = '-' ∨ c = ':'))
          if title = [] then st
          else { st with chapters :=
            st.chapters ++ [⟨normalizeTimestamp (ofList time), ofList title⟩] }
        else st
      | none => st
    if ¬ st.foundTldr ∧ ¬ st.foundChapters ∧ line.length > 50 then
      { st with tldr := line, foundTldr := true }
    else st

/-- `parseUnstructuredResponse`: split into trimmed non-empty lines, scan them
with `puStep`, and default the summary to `'No summary available'`. -/
def parseUnstructuredResponse (responseText : String) : LLMResult :=
  let lines := ((splitOnCharL '\n' responseText.data).map jsTrimL).filter (· ≠ [])
  let st := lines.foldl puStep ⟨[], [], false, false⟩
  { tldr := if st.tldr = [] then "No summary available" else ofList st.tldr
    chapters := st.chapters }

/-! ## `LLMService.generateTLDRAndChapters` (src/server/services/api.ts)

The two provider calls are network effects; they are embedded by passing each
call's outcome as a function of the arguments the code sends it, and the
returned trace records which provider was called with which model. -/

/-- A provider invocation as observed from outside (provider + model sent). -/
inductive LLMCall where
  | openaiCall (model : String)
  | groqCall (model : String)
deriving DecidableEq

/-- The truncation at the top of `generateTLDRAndChapters`:
`text.length > 8000 ? text.substring(0, 8000) + "..." : text`. -/
def truncateTranscript (text : String) : String :=
  if text.data.length > 8000 then ofList (text.data.take 8000) ++ "..." else text

/-- The model string `callOpenAI` sends: `model === 'gpt-5' ? 'gpt-5' : model`. -/
def openAIModelSent (model : String) : String :=
  if model = "gpt-5" then "gpt-5" else model

/-- The fixed model hard-coded in the body of `callGroq`. -/
def groqFixedModel : String := "llama3-8b-8192"

/-- `generateTLDRAndChapters(transcriptText, language, model)`:
truncate, try OpenAI, on any error try Groq when `groqApiKey` is truthy
(non-empty), and otherwise throw `'All LLM providers failed'`.
`openAI text lang model` / `groq text lang` give each call's outcome
(`.error` = the call threw); the second component lists the calls made. -/
def generateTLDRAndChapters
    (openAI : String → String → String → Except String LLMResult)
    (groqApiKey : String)
    (groq : String → String → Except String LLMResult)
    (transcriptText language model : String) :
    Except String LLMResult × List LLMCall :=
  let truncatedText := truncateTranscript transcriptText
  match openAI truncatedText language (openAIModelSent model) with
  | .ok r => (.ok r, [.openaiCall (openAIModelSent model)])
  | .error _ =>
    if groqApiKey ≠ "" then
      match groq truncatedText language with
      | .ok r => (.ok r, [.openaiCall (openAIModelSent model), .groqCall groqFixedModel])
      | .error _ =>
        (.error "All LLM providers failed",
          [.openaiCall (openAIModelSent model), .groqCall groqFixedModel])
    else (.error "All LLM providers failed", [.openaiCall (openAIModelSent model)])

/-! ## `YouTubeService.decodeXMLEntities`
(identical in src/server/services/youtube.ts and analytics.ts) -/

/-- `String.fromCharCode` for one code unit: the argument is taken mod 2^16.
A resulting unpaired surrogate (D800–DFFF) is not a Unicode scalar and cannot
live in a Lean `Char`; it is modelled as U+FFFD (no claim evaluates there). -/
def fromCharCode (n : Nat) : Char :=
  let u := n % 65536
  if u < 55296 ∨ 57344 ≤ u then Char.ofNat u else Char.ofNat 65533

/-- `replace(/&#x([0-9A-Fa-f]+);/g, ...fromCharCode(parseInt(hex, 16)))`:
scan for `&#x`, a maximal non-empty hex-digit run, then `;` (the regex can
match no other way since `;` is not a hex digit).  Fuel-driven as usual. -/
def decodeHexRefsAux : Nat → List Char → List Char
  | 0, cs => cs
  | fuel + 1, cs =>
    match cs with
    | [] => []
    | '&' :: '#' :: 'x' :: rest =>
      let ds := rest.takeWhile isHexC
      (match ds, rest.dropWhile isHexC with
        | _ :: _, ';' :: after => fromCharCode (hexValue ds) :: decodeHexRefsAux fuel after
        | _, _ => '&' :: decodeHexRefsAux fuel ('#' :: 'x' :: rest))
    | c :: rest => c :: decodeHexRefsAux fuel rest

def decodeHexRefs (cs : List Char) : List Char := decodeHexRefsAux cs.length cs

/-- `replace(/&#(\d+);/g, ...fromCharCode(parseInt(dec, 10)))`, as above. -/
def decodeDecRefsAux : Nat → List Char → List Char
  | 0, cs => cs
  | fuel + 1, cs =>
    match cs with
    | [] => []
    | '&' :: '#' :: rest =>
      let ds := rest.takeWhile isDigitC
      (match ds, rest.dropWhile isDigitC with
        | _ :: _, ';' :: after => fromCharCode (decValue ds) :: decodeDecRefsAux fuel after
        | _, _ => '&' :: decodeDecRefsAux fuel ('#' :: rest))
    | c :: rest => c :: decodeDecRefsAux fuel rest

def decodeDecRefs (cs : List Char) : List Char := decodeDecRefsAux cs.length cs

/-- `decodeXMLEntities`: the five literal replacements, then hexadecimal and
decimal character references, in the source's chain order (`&amp;` first). -/
def decodeXMLEntities (text : String) : String :=
  ofList (decodeDecRefs (decodeHexRefs
    (replaceAllL "&#39;".data "'".data
      (replaceAllL "&quot;".data "\"".data
        (replaceAllL "&gt;".data ">".data
          (replaceAllL "&lt;".data "<".data
            (replaceAllL "&amp;".data "&".data text.data)))))))

/-! ## Transcript data model -/

/-- One caption segment.  The TypeScript field `end` is a Lean keyword and is
named `stop` here. -/
structure TranscriptSegment where
  start : JSNum
  stop : JSNum
  text : String
deriving DecidableEq

/-- `{text, segments, reason?}` as used by both `YouTubeService` variants. -/
structure TranscriptResult where
  text : String
  segments : List TranscriptSegment
  reason : Option String
deriving DecidableEq

/-- Space-join of segment texts (`segments.map(s => s.text).join(' ')`). -/
def joinSpace : List String → List Char
  | [] => []
  | [x] => x.data
  | x :: rest => x.data ++ ' ' :: joinSpace rest

/-! ## The XML caption regexes

`youtube.ts` uses `/<text[^>]*start="([^"]*)"[^>]*dur="([^"]*)"[^>]*>([^<]*)<\/text>/g`
on the whole payload and re-extracts the attributes per match;
`analytics.ts` uses `/<text\s+start="([\d.]+)"\s+dur="([\d.]+)"(?:\s+[^>]*)?>([^<]*)<\/text>/g`
with direct capture groups.  Both are compiled here into explicit scanners with
the regexes' greedy/backtracking semantics. -/

/-- Greedy `[^>]*` with backtracking: consume as many non-`>` characters as
possible, retreating one at a time until the continuation `k` succeeds. -/
def starNonGt (k : List Char → Option (List Char)) : List Char → Option (List Char)
  | [] => k []
  | c :: rest =>
    if c = '>' then k (c :: rest)
    else
      match starNonGt k rest with
      | some r => some r
      | none => k (c :: rest)

/-- `([^"]*)"`: capture a maximal quote-free run, then require the closing
quote (no other parse exists, since a shorter run would stop at a
non-quote character). -/
def tillQuote (cs : List Char) : Option (List Char × List Char) :=
  match cs.dropWhile (· ≠ '"') with
  | '"' :: r => some (cs.takeWhile (· ≠ '"'), r)
  | _ => none

/-- `([^<]*)</text>`: capture a maximal `<`-free run, then require the literal
closing tag. -/
def tillCloseTag (cs : List Char) : Option (List Char × List Char) :=
  (dropLead "</text>".data (cs.dropWhile (· ≠ '<'))).map (cs.takeWhile (· ≠ '<'), ·)

/-- Attempt of the `youtube.ts` regex at the head of `cs`; returns the
remainder after the match. -/
def ytMatchAt (cs : List Char) : Option (List Char) :=
  (dropLead "<text".data cs).bind (starNonGt fun r1 =>
    (dropLead "start=\"".data r1).bind fun r2 =>
      (tillQuote r2).bind fun (_, r3) =>
        starNonGt (fun r4 =>
          (dropLead "dur=\"".data r4).bind fun r5 =>
            (tillQuote r5).bind fun (_, r6) =>
              starNonGt (fun r7 =>
                (dropLead ">".data r7).bind fun r8 =>
                  (tillCloseTag r8).map (·.2)) r6) r3)

/-- All matches of the `youtube.ts` regex (`xml.match(.../g)`): left-to-right,
non-overlapping, each as the full matched substring.  Fuel-driven; every step
consumes at least one character. -/
def scanYtAux : Nat → List Char → List (List Char)
  | 0, _ => []
  | fuel + 1, cs =>
    match cs with
    | [] => []
    | _ :: rest =>
      match ytMatchAt cs with
      | some rem => cs.take (cs.length - rem.length) :: scanYtAux fuel rem
      | none => scanYtAux fuel rest

def scanYt (cs : List Char) : List (List Char) := scanYtAux cs.length cs

/-- First match of `/start="([^"]*)"/` (resp. `dur="..."`) inside one matched
element, as `match.match(...)` in the `youtube.ts` per-match loop. -/
def findCapture (lit m : List Char) : Option (List Char) :=
  match m with
  | [] => none
  | _ :: rest =>
    match (dropLead lit m).bind tillQuote with
    | some (g, _) => some g
    | none => findCapture lit rest

/-- First match of `/>([^<]*)</` inside one matched element. -/
def findAngleText (m : List Char) : Option (List Char) :=
  match m with
  | [] => none
  | c :: rest =>
    if c = '>' then
      match rest.dropWhile (· ≠ '<') with
      | '<' :: _ => some (rest.takeWhile (· ≠ '<'))
      | _ => findAngleText rest
    else findAngleText rest

/-- `\s+` followed by a literal: the maximal whitespace run (non-empty); the
following literal starts with a non-whitespace character, so no backtracking
point exists. -/
def wsRun1 (cs : List Char) : Option (List Char) :=
  match cs.takeWhile jsWsChar with
  | [] => none
  | _ => some (cs.dropWhile jsWsChar)

/-- `([\d.]+)"`: a maximal non-empty digits-and-dots run, then the closing
quote (which is outside the class, so no other parse exists). -/
def digitsDots (cs : List Char) : Option (List Char × List Char) :=
  match cs.takeWhile (fun c => isDigitC c ∨ c = '.') with
  | [] => none
  | ds =>
    match cs.dropWhile (fun c => isDigitC c ∨ c = '.') with
    | '"' :: r => some (ds, r)
    | _ => none

/-- `(?:\s+[^>]*)?>`: either the group (requires a leading whitespace
character, then everything up to the next `>`) or, failing that, an
immediate `>`. -/
def optAttrsGt (cs : List Char) : Option (List Char) :=
  match cs with
  | [] => none
  | c :: _ =>
    if jsWsChar c then
      match cs.dropWhile (· ≠ '>') with
      | '>' :: r => some r
      | _ => none
    else if c = '>' then some (cs.drop 1)
    else none

/-- Attempt of the `analytics.ts` regex at the head of `cs`; returns the three
capture groups (start, dur, content) and the remainder. -/
def anMatchAt (cs : List Char) :
    Option ((List Char × List Char × List Char) × List Char) :=
  (dropLead "<text".data cs).bind fun r1 =>
  (wsRun1 r1).bind fun r2 =>
  (dropLead "start=\"".data r2).bind fun r3 =>
  (digitsDots r3).bind fun (g1, r4) =>
  (wsRun1 r4).bind fun r5 =>
  (dropLead "dur=\"".data r5).bind fun r6 =>
  (digitsDots r6).bind fun (g2, r7) =>
  (optAttrsGt r7).bind fun r8 =>
  (tillCloseTag r8).map fun (g3, r9) => ((g1, g2, g3), r9)

/-- All matches of the `analytics.ts` regex (the `while exec` loop), as capture
group triples. -/
def scanAnAux : Nat → List Char → List (List Char × List Char × List Char)
  | 0, _ => []
  | fuel + 1, cs =>
    match cs with
    | [] => []
    | _ :: rest =>
      match anMatchAt cs with
      | some (g, rem) => g :: scanAnAux fuel rem
      | none => scanAnAux fuel rest

def scanAn (cs : List Char) : List (List Char × List Char × List Char) :=
  scanAnAux cs.length cs

/-! ## `YouTubeService.parseTranscriptXML` — both variants -/

namespace Youtube

/-- `parseTranscriptXML` from `src/server/services/youtube.ts`: zero regex
matches (`xml.match` returning `null`) yield `{text: '', segments: []}`;
otherwise each matched element is re-searched for `start`, `dur` and the
element text (segments are pushed only when all three sub-matches succeed),
and the result joins the decoded texts with spaces and trims.  The function
never throws; it returns `Except` only for uniformity with the analytics
variant. -/
def parseTranscriptXML (xml : String) : Except String TranscriptResult :=
  let textMatches := scanYt xml.data
  if textMatches = [] then .ok ⟨"", [], none⟩
  else
    let segments := textMatches.foldl (fun acc m =>
      match findCapture "start=\"".data m, findCapture "dur=\"".data m, findAngleText m with
      | some s, some d, some t =>
        let start := jsParseFloatL s
        acc ++ [⟨start, start.add (jsParseFloatL d), decodeXMLEntities (ofList t)⟩]
      | _, _, _ => acc) []
    .ok ⟨ofList (jsTrimL (joinSpace (segments.map (·.text)))), segments, none⟩

end Youtube

namespace Analytics

/-- `parseTranscriptXML` from `src/server/services/analytics.ts`: the `exec`
loop builds one segment per match; zero segments throw
`'No segments found in XML transcript'`. -/
def parseTranscriptXML (xml : String) : Except String TranscriptResult :=
  let segments := (scanAn xml.data).map fun g =>
    let start := jsParseFloatL g.1
    (⟨start, start.add (jsParseFloatL g.2.1), decodeXMLEntities (ofList g.2.2)⟩ :
      TranscriptSegment)
  if segments = [] then .error "No segments found in XML transcript"
  else .ok ⟨ofList (jsTrimL (joinSpace (segments.map (·.text)))), segments, none⟩

end Analytics

/-! ## `YouTubeService.getTranscript` — both variants

Each acquisition strategy is a network effect; its outcome for the call in
question is passed in as a `StrategyOutcome` (`throws` = the strategy threw,
`returns` = the strategy resolved).  The returned list records which strategies
were invoked, in order. -/

/-- Outcome of one acquisition strategy. -/
inductive StrategyOutcome where
  | throws (e : String)
  | returns (r : TranscriptResult)
deriving DecidableEq

/-- The exhausted-strategies result both variants fall through to. -/
def noTranscriptResult : TranscriptResult :=
  ⟨"", [], some "no_transcript_available_all_methods_failed"⟩

namespace Youtube

/-- The per-strategy acceptance test of `youtube.ts`: a thrown error is caught
and skipped, a result is returned iff `result.text` is truthy (non-empty). -/
def strategyUsable : StrategyOutcome → Option TranscriptResult
  | .throws _ => none
  | .returns r => if r.text = "" then none else some r

/-- `getTranscript` from `src/server/services/youtube.ts`: try the three
strategies in order, return the first result with non-empty `text`, and fall
through to `noTranscriptResult` (never throwing). -/
def getTranscript (s1 s2 s3 : StrategyOutcome) : TranscriptResult × List Nat :=
  match strategyUsable s1 with
  | some r => (r, [1])
  | none =>
    match strategyUsable s2 with
    | some r => (r, [1, 2])
    | none =>
      match strategyUsable s3 with
      | some r => (r, [1, 2, 3])
      | none => (noTranscriptResult, [1, 2, 3])

end Youtube

namespace Analytics

/-- `isValidVideoId` from `analytics.ts`: exactly 11 characters drawn from
`[a-zA-Z0-9_-]`. -/
def isValidVideoId (videoId : String) : Bool :=
  videoId.data.length = 11 &&
    videoId.data.all fun c =>
      ('a' ≤ c ∧ c ≤ 'z') ∨ ('A' ≤ c ∧ c ≤ 'Z') ∨ isDigitC c ∨ c = '_' ∨ c = '-'

/-- The per-strategy acceptance test of `analytics.ts`:
`result.text && result.text.trim().length > 0`. -/
def strategyUsable : StrategyOutcome → Option TranscriptResult
  | .throws _ => none
  | .returns r => if r.text ≠ "" ∧ jsTrimL r.text.data ≠ [] then some r else none

/-- `getTranscript` from `src/server/services/analytics.ts`: throws
`Invalid YouTube video ID: ...` for an identifier failing `isValidVideoId`,
otherwise walks the three strategies exactly like the `youtube.ts` variant but
requiring non-blank (trim-non-empty) text. -/
def getTranscript (videoId : String) (s1 s2 s3 : StrategyOutcome) :
    Except String (TranscriptResult × List Nat) :=
  if ¬ isValidVideoId videoId then .error ("Invalid YouTube video ID: " ++ videoId)
  else
    match strategyUsable s1 with
    | some r => .ok (r, [1])
    | none =>
      match strategyUsable s2 with
      | some r => .ok (r, [1, 2])
      | none =>
        match strategyUsable s3 with
        | some r => .ok (r, [1, 2, 3])
        | none => .ok (noTranscriptResult, [1, 2, 3])

end Analytics

/-! ## `retryOperation` (src/unnamed/part_003) -/

/-- A JavaScript thrown value: either an `Error` instance (with its message) or
any other value (carried as its `String(...)` rendering). -/
inductive ThrownValue where
  | errObj (message : String)
  | nonErr (stringRepr : String)
deriving DecidableEq

/-- `error instanceof Error ? error : new Error(String(error))` — the
normalization `retryOperation` applies before re-raising. -/
def toErrorInstance : ThrownValue → ThrownValue
  | .errObj m => .errObj m
  | .nonErr s => .errObj s

/-- The `for (attempt = 0; attempt <= maxRetries; ...)` loop of
`retryOperation`, with `remaining = maxRetries - attempt`.  `op i` is the
outcome of the `i`-th invocation (0-based); the result carries the number of
invocations made.  The backoff state (`currentDelay`, capped by `maxDelay`) is
threaded for faithfulness even though no claim reads the delays. -/
def retryAux (op : Nat → Except ThrownValue α) (backoffMultiplier maxDelay : ℚ) :
    Nat → Nat → ℚ → Except ThrownValue α × Nat
  | attempt, remaining, currentDelay =>
    match op attempt with
    | .ok v => (.ok v, attempt + 1)
    | .error e =>
      match remaining with
      | 0 => (.error (toErrorInstance e), attempt + 1)
      | r + 1 =>
        retryAux op backoffMultiplier maxDelay (attempt + 1) r
          (min (currentDelay * backoffMultiplier) maxDelay)

/-- `retryOperation(operation, {maxRetries, delay, backoffMultiplier,
maxDelay})`; the destructuring defaults are `backoffMultiplier = 2` and
`maxDelay = 30000`, applied by `retryOperationDefaults` below when the options
omit them. -/
def retryOperation (op : Nat → Except ThrownValue α) (maxRetries : Nat) (delay : ℚ)
    (backoffMultiplier maxDelay : ℚ) : Except ThrownValue α × Nat :=
  retryAux op backoffMultiplier maxDelay 0 maxRetries delay

/-- `retryOperation` called with options that omit `backoffMultiplier` and
`maxDelay` (the defaults `2` and `30000` from the destructuring pattern). -/
def retryOperationDefaults (op : Nat → Except ThrownValue α) (maxRetries : Nat)
    (delay : ℚ) : Except ThrownValue α × Nat :=
  retryOperation op maxRetries delay 2 30000

/-! ## The WHATWG `URL` builtin, as used by `extractVideoId`

`extractVideoId` (src/unnamed/part_002 and `YouTubeAPI` in
src/server/services/api.ts) observes only `hostname`, `pathname` and
`searchParams.get('v')` of `new URL(url)`.  The model below follows the WHATWG
parser for absolute URLs on its ASCII fragment, including scheme detection,
special-scheme slash slurping, userinfo/port splitting, host lowercasing and
`application/x-www-form-urlencoded` query parsing.  Not modelled (none is
observable on the inputs the claims evaluate): IDNA and percent-decoding of
hosts, IPv6 literals (parse failure here), dot-segment normalization and
percent-encoding of paths, and UTF-8 decoding of non-ASCII percent escapes. -/

structure JSUrl where
  hostname : String
  pathname : String
  search : String
deriving DecidableEq

def isAsciiAlpha (c : Char) : Bool := ('a' ≤ c ∧ c ≤ 'z') ∨ ('A' ≤ c ∧ c ≤ 'Z')

def isSchemeChar (c : Char) : Bool :=
  isAsciiAlpha c ∨ isDigitC c ∨ c = '+' ∨ c = '-' ∨ c = '.'

/-- Remove leading/trailing C0-control-or-space and all interior tab/newline
characters (the URL parser's input preprocessing). -/
def urlSanitize (cs : List Char) : List Char :=
  (((cs.dropWhile fun c => c.toNat ≤ 32).reverse.dropWhile fun c =>
      c.toNat ≤ 32).reverse).filter fun c => c ≠ '\t' ∧ c ≠ '\n' ∧ c ≠ '\r'

/-- Split off a `scheme:`; the scheme is lowercased. -/
def splitScheme (cs : List Char) : Option (List Char × List Char) :=
  match cs with
  | [] => none
  | c :: _ =>
    if isAsciiAlpha c then
      match cs.dropWhile isSchemeChar with
      | ':' :: rest => some (jsLowerL (cs.takeWhile isSchemeChar), rest)
      | _ => none
    else none

def specialSchemes : List (List Char) :=
  ["http".data, "https".data, "ws".data, "wss".data, "ftp".data, "file".data]

/-- Forbidden host code points (ASCII portion). -/
def forbiddenHostChar (c : Char) : Bool :=
  c = Char.ofNat 0 ∨ c = ' ' ∨ c = '#' ∨ c = '/' ∨ c = ':' ∨ c = '<' ∨ c = '>' ∨
    c = '?' ∨ c = '@' ∨ c = '[' ∨ c = '\\' ∨ c = ']' ∨ c = '^' ∨ c = '|'

def lastIdxOf (c : Char) (cs : List Char) : Option Nat :=
  (idxOfChar c cs.reverse).map fun i => cs.length - 1 - i

/-- Validate and normalize the host-and-port part: split a `:port` (digits
only, ≤ 65535), reject forbidden characters and IPv6 literals, lowercase. -/
def parseHost (hostport : List Char) (allowEmpty : Bool) : Option (List Char) :=
  match hostport with
  | '[' :: _ => none
  | _ =>
    let (host, portPart) :=
      match idxOfChar ':' hostport with
      | some i => (hostport.take i, some (hostport.drop (i + 1)))
      | none => (hostport, none)
    if host = [] ∧ ¬ allowEmpty then none
    else if host.any forbiddenHostChar then none
    else
      match portPart with
      | none => some (jsLowerL host)
      | some p =>
        if p.all isDigitC ∧ (p = [] ∨ decValue p ≤ 65535) then some (jsLowerL host)
        else none

/-- Split the part after the authority into `(pathname, search)`.  For special
schemes an absent path is `/` and backslashes are path separators. -/
def splitPathQuery (special : Bool) (rest : List Char) : List Char × List Char :=
  match rest with
  | [] => ((if special then ['/'] else []), [])
  | '?' :: q => ((if special then ['/'] else []), q)
  | _ =>
    let path := rest.takeWhile (· ≠ '?')
    let q := match rest.dropWhile (· ≠ '?') with
      | '?' :: q => q
      | _ => []
    ((if special then path.map fun c => if c = '\\' then '/' else c else path), q)

/-- Parse from the authority onward (`cs` is fragment-free and positioned at
the authority). -/
def parseAuthority (special allowEmptyHost : Bool) (cs : List Char) : Option JSUrl :=
  let isDelim : Char → Bool := fun c => c == '/' || c == '?' || (special && c == '\\')
  let au := cs.takeWhile fun c => ¬ isDelim c
  let rest := cs.dropWhile fun c => ¬ isDelim c
  let hostport :=
    match lastIdxOf '@' au with
    | some i => au.drop (i + 1)
    | none => au
  (parseHost hostport allowEmptyHost).map fun host =>
    let pq := splitPathQuery special rest
    ⟨ofList host, ofList pq.1, ofList pq.2⟩

/-- `new URL(url)` (no base): `none` models the `TypeError` on invalid input. -/
def parseURL (url : String) : Option JSUrl :=
  let cs := urlSanitize url.data
  (splitScheme cs).bind fun sr =>
    let noFrag := sr.2.takeWhile (· ≠ '#')
    if sr.1 ∈ specialSchemes then
      parseAuthority true (sr.1 = "file".data)
        (noFrag.dropWhile fun c => c == '/' || c == '\\')
    else
      match noFrag with
      | '/' :: '/' :: au => parseAuthority false true au
      | _ =>
        let path := noFrag.takeWhile (· ≠ '?')
        let q := match noFrag.dropWhile (· ≠ '?') with
          | '?' :: q => q
          | _ => []
        some ⟨"", ofList path, ofList q⟩

/-- Percent-decoding (`%HH`); a decoded byte is mapped to the code point of the
same value (exact on ASCII). -/
def percentDecodeAux : Nat → List Char → List Char
  | 0, cs => cs
  | fuel + 1, cs =>
    match cs with
    | [] => []
    | '%' :: h1 :: h2 :: rest =>
      if isHexC h1 ∧ isHexC h2 then
        fromCharCode (16 * hexVal h1 + hexVal h2) :: percentDecodeAux fuel rest
      else '%' :: percentDecodeAux fuel (h1 :: h2 :: rest)
    | c :: rest => c :: percentDecodeAux fuel rest

/-- `application/x-www-form-urlencoded` value decoding: `+` to space, then
percent-decoding. -/
def formDecode (cs : List Char) : List Char :=
  let plussed := cs.map fun c => if c = '+' then ' ' else c
  percentDecodeAux plussed.length plussed

/-- `new URLSearchParams(search).get(name)`: split on `&`, skip empty pieces,
split each at the first `=`, decode names and values, return the first value
whose name matches. -/
def searchParamsGet (search : List Char) (name : List Char) : Option (List Char) :=
  let pairs := (splitOnCharL '&' search).filterMap fun p =>
    if p = [] then none
    else
      match idxOfChar '=' p with
      | some i => some (formDecode (p.take i), formDecode (p.drop (i + 1)))
      | none => some (formDecode p, ([] : List Char))
  (pairs.find? fun pr => pr.1 == name).map (·.2)

/-! ## `extractVideoId` / `isValidYouTubeUrl`
(src/unnamed/part_002; `YouTubeAPI` in src/server/services/api.ts is
identical) -/

/-- `extractVideoId(url)`: `null` on URL parse failure; `pathname.slice(1)`
for host `youtu.be`; `searchParams.get('v')` for hostnames containing
`youtube.com`; `null` otherwise. -/
def extractVideoId (url : String) : Option String :=
  match parseURL url with
  | none => none
  | some u =>
    if u.hostname = "youtu.be" then some (ofList (u.pathname.data.drop 1))
    else if containsSub "youtube.com".data u.hostname.data then
      (searchParamsGet u.search.data "v".data).map ofList
    else none

/-- `isValidYouTubeUrl(url)`: `extractVideoId(url) !== null`. -/
def isValidYouTubeUrl (url : String) : Bool := (extractVideoId url).isSome

deriving instance DecidableEq for Except

/-! ## Spec-side definitions (for comparison with the embedded code) -/

/-- Modelled from the claim's words for the short-host form: the *first path
segment* of the URL — the characters after the leading `/` up to the next
`/`. -/
def firstPathSegment (pathname : String) : String :=
  ofList (((pathname.data.dropWhile (· = '/')).takeWhile (· ≠ '/')))

/-- The full path with the leading slash removed (what `pathname.slice(1)`
returns on a parsed URL, whose path is empty or starts with `/`). -/
def pathAfterSlash (pathname : String) : String :=
  match pathname.data with
  | '/' :: r => ofList r
  | _ => pathname

/-- Modelled from the spec's words, amended for the short-host form: the
identifier is the full path after the leading slash (equal to the first path
segment when the path has a single segment); the canonical-host form is the
`v` query parameter of a hostname containing `youtube.com`; anything else
fails. -/
def specResolveIdentifier (url : String) : Option String :=
  match parseURL url with
  | none => none
  | some u =>
    if u.hostname = "youtu.be" then some (pathAfterSlash u.pathname)
    else if containsSub "youtube.com".data u.hostname.data then
      (searchParamsGet u.search.data "v".data).map ofList
    else none

/-- One timestamp component's binary64 value — the exact parse rounded by
`roundNat`, as `jsParseIntL` returns it — is below 1e21 (or the component does
not parse at all): the region where `Number.prototype.toString` prints plain
decimal.  The rounding matters at the boundary: 21 nines round *to* 1e21 and
are excluded here, exactly as JavaScript prints them exponentially. -/
def partBelowE21 (p : List Char) : Bool :=
  match jsParseIntL p with
  | some n => n.natAbs < 10 ^ 21
  | none => true

/-! ## Claim theorems -/

/-- C9 (implicit claim, confirmed): a short-host URL with an empty path and a
canonical-host URL with an empty `v` value make `extractVideoId` return the
empty string (not `null`), so `isValidYouTubeUrl` accepts both although they
carry no identifier. -/
theorem extractVideoId_empty_identifier :
    extractVideoId "https://youtu.be/" = some "" ∧
    extractVideoId "https://www.youtube.com/watch?v=" = some "" ∧
    isValidYouTubeUrl "https://youtu.be/" = true ∧
    isValidYouTubeUrl "https://www.youtube.com/watch?v=" = true := by decide

/-- C10 (confirmed): `decodeXMLEntities` replaces `&amp;` first, so an
ampersand-escaped entity reference is decoded twice: `&amp;lt;` becomes `<`
(not the literal `&lt;`), and likewise through the numeric-reference path
(`&amp;#60;`).  The last conjunct exercises every replacement of the chain.
Totality on every input is by construction: the embedding is a plain
function `String → String`, matching the source, which calls only
non-throwing string operations. -/
theorem decodeXMLEntities_double_decode :
    decodeXMLEntities "&amp;lt;" = "<" ∧
    decodeXMLEntities "&amp;lt;" ≠ "&lt;" ∧
    decodeXMLEntities "&amp;#60;" = "<" ∧
    decodeXMLEntities "a &amp; b &lt;c&gt; &quot;d&quot; &#39;e&#39; &#x41;" =
      "a & b <c> \"d\" 'e' A" := by decide

/-- C4 counterexample: the claim's response — the marker-less two lines
`Resumen: Video about X` and `02:30 Main topic` — yields *no* chapter at all:
the timestamp branch of `parseUnstructuredResponse` requires the
`foundChapters` flag, which only a line containing `chapters`/`capítulos`
sets.  The claim's expected chapter list `[{02:30, Main topic}]` differs. -/
theorem parseUnstructuredResponse_no_marker_counterexample :
    parseUnstructuredResponse "Resumen: Video about X\n02:30 Main topic" =
      { tldr := "Video about X", chapters := [] } ∧
    ([] : List Chapter) ≠ [{ time := "02:30", title := "Main topic" }] := by decide

/-- C4 (amended): with a chapter-marker line (here `Chapters:`) between the
summary line and the timestamp line, `parseUnstructuredResponse` yields
`tldr = "Video about X"` and the chapter `{time: "02:30", title: "Main
topic"}`. -/
theorem parseUnstructuredResponse_amended :
    parseUnstructuredResponse "Resumen: Video about X\nChapters:\n02:30 Main topic" =
      { tldr := "Video about X",
        chapters := [{ time := "02:30", title := "Main topic" }] } := by decide

/-- C6 counterexample: on a payload where zero `<text ...>...</text>` elements
match, the `youtube.ts` variant of `parseTranscriptXML` *returns* the
empty-but-valid `{text: '', segments: []}` instead of failing (the embedding
wraps it in `.ok`; the source function has no throwing path at all). -/
theorem parseTranscriptXML_empty_ok_counterexample :
    Youtube.parseTranscriptXML "<transcript><broken/></transcript>" =
      .ok ⟨"", [], none⟩ := by decide

/-- C7 counterexample: `generateCacheKey` is not collision-free — a `-` inside
the identifier shifts into the language slot: `("a-b", "c", "d")` and
`("a", "b-c", "d")` are distinct triples with equal keys. -/
theorem generateCacheKey_collision_counterexample :
    generateCacheKey "a-b" "c" "d" = generateCacheKey "a" "b-c" "d" ∧
    ("a-b", "c", "d") ≠ (("a", "b-c", "d") : String × String × String) := by decide

/-- C8 counterexample: idempotence fails once a component's binary64 value
reaches 1e21, where `Number.prototype.toString` switches to exponential
notation: the first normalization of `"1000000000000000000000:0"` yields
`"1e+21:00"`, whose renormalization parses `1e+21` as `1` and yields
`"01:00"`.  The rounding is part of the boundary: 21 nines (10^21 − 1) also
*round to* exactly 1e21 (doubles are spaced 2^17 apart there), print
exponentially, and break idempotence the same way — the model reproduces this
and `partBelowE21` accordingly rejects that component. -/
theorem normalizeTimestamp_idempotence_counterexample :
    normalizeTimestamp "1000000000000000000000:0" = "1e+21:00" ∧
    normalizeTimestamp (normalizeTimestamp "1000000000000000000000:0") = "01:00" ∧
    normalizeTimestamp (normalizeTimestamp "1000000000000000000000:0") ≠
      normalizeTimestamp "1000000000000000000000:0" ∧
    normalizeTimestamp "999999999999999999999:0" = "1e+21:00" ∧
    normalizeTimestamp (normalizeTimestamp "999999999999999999999:0") ≠
      normalizeTimestamp "999999999999999999999:0" ∧
    partBelowE21 "999999999999999999999".data = false := by decide

/-- C5 counterexample: an operation that always throws the non-`Error` value
`"boom"` is re-raised as a fresh `Error` instance (`new Error(String(e))`) —
a different value than was thrown, contradicting "same error value, not
wrapped" (the attempt count, `maxRetries + 1 = 3`, is as claimed). -/
theorem retryOperation_wraps_nonerror_counterexample :
    retryOperation (fun _ => (.error (.nonErr "boom") : Except ThrownValue Nat))
        2 100 2 30000 = (.error (.errObj "boom"), 3) ∧
    ThrownValue.errObj "boom" ≠ .nonErr "boom" := by decide

/-- C2 counterexample: on `https://youtu.be/abc/def` the code returns the full
path after the slash (`pathname.slice(1)` = `"abc/def"`), not the first path
segment `"abc"` the claim promises. -/
theorem extractVideoId_first_segment_counterexample :
    extractVideoId "https://youtu.be/abc/def" = some "abc/def" ∧
    (parseURL "https://youtu.be/abc/def").map (fun u => firstPathSegment u.pathname) =
      some "abc" ∧
    ("abc/def" : String) ≠ "abc" := by decide

/-- C1 counterexample: the `analytics.ts` variant of `getTranscript` first
validates the identifier and *throws* `Invalid YouTube video ID: ...` for the
3-character identifier `"bad"` — even with all three strategies failing, where
the claim promises an error-free empty `TranscriptResult`. -/
theorem getTranscript_invalid_id_counterexample :
    Analytics.getTranscript "bad" (.throws "e1") (.throws "e2") (.throws "e3") =
      .error "Invalid YouTube video ID: bad" ∧
    (Except.error "Invalid YouTube video ID: bad" :
        Except String (TranscriptResult × List Nat)) ≠
      .ok (noTranscriptResult, [1, 2, 3]) := by decide

/-- C1 (amended): the ordered-fallback behaviour, per variant.  For the
`youtube.ts` variant the claim holds as stated for every identifier: if
strategy 1 is unusable (threw, or returned empty text — `strategyUsable _ =
none`) and strategy 2 returns non-empty text, the result is exactly strategy
2's output with invocation trace `[1, 2]` (strategy 3 never invoked); if all
three are unusable the call returns the error-free exhaustion result.  The
`analytics.ts` variant behaves the same only for identifiers passing its
`isValidVideoId` check (the counterexample shows it throws otherwise) and
reads "non-empty" as non-blank (`text.trim().length > 0`). -/
theorem getTranscript_strategy_order_amended :
    (∀ s1 s3 (r2 : TranscriptResult), Youtube.strategyUsable s1 = none →
      r2.text ≠ "" → Youtube.getTranscript s1 (.returns r2) s3 = (r2, [1, 2])) ∧
    (∀ s1 s2 s3, Youtube.strategyUsable s1 = none → Youtube.strategyUsable s2 = none →
      Youtube.strategyUsable s3 = none →
      Youtube.getTranscript s1 s2 s3 = (noTranscriptResult, [1, 2, 3])) ∧
    (∀ videoId s1 s3 (r2 : TranscriptResult), Analytics.isValidVideoId videoId = true →
      Analytics.strategyUsable s1 = none → r2.text ≠ "" → jsTrimL r2.text.data ≠ [] →
      Analytics.getTranscript videoId s1 (.returns r2) s3 = .ok (r2, [1, 2])) ∧
    (∀ videoId s1 s2 s3, Analytics.isValidVideoId videoId = true →
      Analytics.strategyUsable s1 = none → Analytics.strategyUsable s2 = none →
      Analytics.strategyUsable s3 = none →
      Analytics.getTranscript videoId s1 s2 s3 = .ok (noTranscriptResult, [1, 2, 3])) := by
  refine ⟨?_, ?_, ?_, ?_⟩
  · intro s1 s3 r2 h1 h2
    simp only [Youtube.getTranscript, h1]
    simp [Youtube.strategyUsable, h2]
  · intro s1 s2 s3 h1 h2 h3
    simp [Youtube.getTranscript, h1, h2, h3]
  · intro videoId s1 s3 r2 hv h1 h2 h2'
    simp only [Analytics.getTranscript, hv, h1]
    simp [Analytics.strategyUsable, h2, h2']
  · intro videoId s1 s2 s3 hv h1 h2 h3
    simp [Analytics.getTranscript, hv, h1, h2, h3]

/-- C1 witness: the amended theorem instantiated with a throwing strategy 1,
a successful strategy 2, and concrete outcomes/identifiers. -/
theorem getTranscript_strategy_order_witness :
    Youtube.getTranscript (.throws "e1") (.returns ⟨"hello", [], none⟩)
        (.returns ⟨"later", [], none⟩) = (⟨"hello", [], none⟩, [1, 2]) ∧
    Youtube.getTranscript (.throws "e1") (.returns ⟨"", [], none⟩) (.throws "e3") =
      (noTranscriptResult, [1, 2, 3]) ∧
    Analytics.getTranscript "dQw4w9WgXcQ" (.throws "e1") (.returns ⟨"hello", [], none⟩)
        (.throws "e3") = .ok (⟨"hello", [], none⟩, [1, 2]) ∧
    Analytics.getTranscript "dQw4w9WgXcQ" (.throws "e1") (.returns ⟨" ", [], none⟩)
        (.throws "e3") = .ok (noTranscriptResult, [1, 2, 3]) :=
  ⟨getTranscript_strategy_order_amended.1 _ _ _ (by decide) (by decide),
   getTranscript_strategy_order_amended.2.1 _ _ _ (by decide) (by decide) (by decide),
   getTranscript_strategy_order_amended.2.2.1 _ _ _ _ (by decide) (by decide)
     (by decide) (by decide),
   getTranscript_strategy_order_amended.2.2.2 _ _ _ _ (by decide) (by decide)
     (by decide) (by decide)⟩

/-- C3 (confirmed): `generateTLDRAndChapters` calls OpenAI first with the
requested model; on any OpenAI error it calls Groq — only when the Groq key is
non-empty, and always with the fixed model `llama3-8b-8192`, ignoring the
requested one; if the key is empty or Groq also fails it throws
`'All LLM providers failed'`. -/
theorem generateTLDRAndChapters_provider_fallback :
    ∀ (openAI : String → String → String → Except String LLMResult)
      (groqApiKey : String) (groq : String → String → Except String LLMResult)
      (text lang model : String),
    (∀ r, openAI (truncateTranscript text) lang (openAIModelSent model) = .ok r →
      generateTLDRAndChapters openAI groqApiKey groq text lang model =
        (.ok r, [.openaiCall (openAIModelSent model)])) ∧
    (∀ e r, openAI (truncateTranscript text) lang (openAIModelSent model) = .error e →
      groqApiKey ≠ "" → groq (truncateTranscript text) lang = .ok r →
      generateTLDRAndChapters openAI groqApiKey groq text lang model =
        (.ok r, [.openaiCall (openAIModelSent model), .groqCall groqFixedModel])) ∧
    (∀ e, openAI (truncateTranscript text) lang (openAIModelSent model) = .error e →
      groqApiKey = "" →
      generateTLDRAndChapters openAI groqApiKey groq text lang model =
        (.error "All LLM providers failed", [.openaiCall (openAIModelSent model)])) ∧
    (∀ e e', openAI (truncateTranscript text) lang (openAIModelSent model) = .error e →
      groqApiKey ≠ "" → groq (truncateTranscript text) lang = .error e' →
      generateTLDRAndChapters openAI groqApiKey groq text lang model =
        (.error "All LLM providers failed",
          [.openaiCall (openAIModelSent model), .groqCall groqFixedModel])) := by
  intro openAI groqApiKey groq text lang model
  refine ⟨?_, ?_, ?_, ?_⟩
  · intro r h
    simp [generateTLDRAndChapters, h]
  · intro e r h hk hg
    simp [generateTLDRAndChapters, h, hk, hg]
  · intro e h hk
    simp [generateTLDRAndChapters, h, hk]
  · intro e e' h hk hg
    simp [generateTLDRAndChapters, h, hk, hg]

/-- C3 witness: the fallback path at concrete inputs — OpenAI fails, the Groq
key is set, Groq succeeds; the result is Groq's and the trace shows the fixed
fallback model. -/
theorem generateTLDRAndChapters_provider_fallback_witness :
    generateTLDRAndChapters (fun _ _ _ => .error "boom") "gsk-key"
        (fun _ _ => .ok ⟨"summary", []⟩) "some transcript" "en" "gpt-5" =
      (.ok ⟨"summary", []⟩, [.openaiCall "gpt-5", .groqCall "llama3-8b-8192"]) :=
  (generateTLDRAndChapters_provider_fallback _ _ _ _ _ _).2.1 "boom" ⟨"summary", []⟩
    rfl (by decide) rfl

/-- C6 (amended): on a payload with zero matching `<text start=".."
dur="..">..</text>` elements the `analytics.ts` variant of
`parseTranscriptXML` does fail (`'No segments found in XML transcript'`),
while the `youtube.ts` variant instead returns the empty-but-valid
`{text: '', segments: []}` (see the counterexample). -/
theorem parseTranscriptXML_zero_matches_amended :
    (∀ xml : String, scanAn xml.data = [] →
      Analytics.parseTranscriptXML xml = .error "No segments found in XML transcript") ∧
    (∀ xml : String, scanYt xml.data = [] →
      Youtube.parseTranscriptXML xml = .ok ⟨"", [], none⟩) := by
  constructor
  · intro xml h
    simp [Analytics.parseTranscriptXML, h]
  · intro xml h
    simp [Youtube.parseTranscriptXML, h]

/-- C6 witness: the amended theorem applied to a concrete zero-match payload. -/
theorem parseTranscriptXML_zero_matches_witness :
    Analytics.parseTranscriptXML "<transcript></transcript>" =
      .error "No segments found in XML transcript" ∧
    Youtube.parseTranscriptXML "<transcript></transcript>" = .ok ⟨"", [], none⟩ :=
  ⟨parseTranscriptXML_zero_matches_amended.1 _ (by decide),
   parseTranscriptXML_zero_matches_amended.2 _ (by decide)⟩

/-- One unfolding step of the retry loop: a failure with attempts remaining
recurses with the backed-off delay. -/
theorem retryAux_err_step {α : Type} (op : Nat → Except ThrownValue α) (bm md : ℚ)
    (attempt r : Nat) (curD : ℚ) (e : ThrownValue) (h : op attempt = .error e) :
    retryAux op bm md attempt (r + 1) curD =
      retryAux op bm md (attempt + 1) r (min (curD * bm) md) := by
  conv_lhs => unfold retryAux
  rw [h]

/-- One unfolding step: a failure on the last allowed attempt re-raises the
normalized error. -/
theorem retryAux_err_last {α : Type} (op : Nat → Except ThrownValue α) (bm md : ℚ)
    (attempt : Nat) (curD : ℚ) (e : ThrownValue) (h : op attempt = .error e) :
    retryAux op bm md attempt 0 curD = (.error (toErrorInstance e), attempt + 1) := by
  unfold retryAux
  rw [h]

/-- One unfolding step: a success returns immediately with the invocation
count. -/
theorem retryAux_ok_now {α : Type} (op : Nat → Except ThrownValue α) (bm md : ℚ)
    (attempt r : Nat) (curD : ℚ) (v : α) (h : op attempt = .ok v) :
    retryAux op bm md attempt r curD = (.ok v, attempt + 1) := by
  unfold retryAux
  rw [h]

/-- Helper for C5: if every attempt in `[attempt, attempt + remaining)` fails
and attempt `attempt + remaining` succeeds with `v`, the retry loop returns
`v` after `attempt + remaining + 1` invocations. -/
theorem retryAux_ok {α : Type} (op : Nat → Except ThrownValue α) (bm md : ℚ) :
    ∀ (remaining attempt : Nat) (curD : ℚ) (v : α),
      (∀ i, attempt ≤ i → i < attempt + remaining → ∃ e, op i = .error e) →
      op (attempt + remaining) = .ok v →
      retryAux op bm md attempt remaining curD = (.ok v, attempt + remaining + 1) := by
  intro remaining
  induction remaining with
  | zero =>
    intro attempt curD v _ hok
    rw [Nat.add_zero] at hok ⊢
    exact retryAux_ok_now op bm md attempt 0 curD v hok
  | succ r ih =>
    intro attempt curD v hfail hok
    obtain ⟨e, he⟩ := hfail attempt (Nat.le_refl _) (by omega)
    rw [retryAux_err_step op bm md attempt r curD e he]
    have h2 := ih (attempt + 1) (min (curD * bm) md) v
      (fun i hi hi' => hfail i (by omega) (by omega))
      (by rw [show attempt + 1 + r = attempt + (r + 1) by omega]; exact hok)
    rw [show attempt + 1 + r = attempt + (r + 1) by omega] at h2
    exact h2

/-- Helper for C5: if every attempt in `[attempt, attempt + remaining]` fails
with `es i`, the loop re-raises `toErrorInstance (es (attempt + remaining))`
after `attempt + remaining + 1` invocations. -/
theorem retryAux_allfail {α : Type} (op : Nat → Except ThrownValue α) (bm md : ℚ)
    (es : Nat → ThrownValue) :
    ∀ (remaining attempt : Nat) (curD : ℚ),
      (∀ i, attempt ≤ i → i ≤ attempt + remaining → op i = .error (es i)) →
      retryAux op bm md attempt remaining curD =
        ((.error (toErrorInstance (es (attempt + remaining))) : Except ThrownValue α),
          attempt + remaining + 1) := by
  intro remaining
  induction remaining with
  | zero =>
    intro attempt curD hfail
    rw [Nat.add_zero]
    exact retryAux_err_last op bm md attempt curD (es attempt)
      (hfail attempt (Nat.le_refl _) (by omega))
  | succ r ih =>
    intro attempt curD hfail
    rw [retryAux_err_step op bm md attempt r curD (es attempt)
      (hfail attempt (Nat.le_refl _) (by omega))]
    have h2 := ih (attempt + 1) (min (curD * bm) md)
      (fun i hi hi' => hfail i (by omega) (by omega))
    rw [show attempt + 1 + r = attempt + (r + 1) by omega] at h2
    exact h2

/-- C5 (amended): an operation failing on attempts `1..maxRetries` (0-based
`0..maxRetries-1`) and succeeding on the final allowed attempt makes
`retryOperation` return the success value after exactly `maxRetries + 1`
invocations; an operation failing on every attempt makes it re-raise the last
error after exactly `maxRetries + 1` invocations — unchanged when the thrown
value is an `Error` instance, but a non-`Error` thrown value is re-raised
wrapped as `new Error(String(value))` (see the counterexample). -/
theorem retryOperation_amended :
    ∀ {α : Type} (op : Nat → Except ThrownValue α) (maxRetries : Nat)
      (delay bm md : ℚ),
    (∀ v, (∀ i, i < maxRetries → ∃ e, op i = .error e) → op maxRetries = .ok v →
      retryOperation op maxRetries delay bm md = (.ok v, maxRetries + 1)) ∧
    (∀ es : Nat → ThrownValue, (∀ i, i ≤ maxRetries → op i = .error (es i)) →
      retryOperation op maxRetries delay bm md =
        (.error (toErrorInstance (es maxRetries)), maxRetries + 1)) ∧
    (∀ m, (∀ i, i ≤ maxRetries → op i = .error (.errObj m)) →
      retryOperation op maxRetries delay bm md = (.error (.errObj m), maxRetries + 1)) := by
  intro α op maxRetries delay bm md
  refine ⟨?_, ?_, ?_⟩
  · intro v hfail hok
    have := retryAux_ok op bm md maxRetries 0 delay v
      (fun i hi hi' => hfail i (by omega)) (by simpa using hok)
    simpa [retryOperation] using this
  · intro es hfail
    have := retryAux_allfail op bm md es maxRetries 0 delay
      (fun i hi hi' => hfail i (by omega))
    simpa [retryOperation] using this
  · intro m hfail
    have := retryAux_allfail op bm md (fun _ => .errObj m) maxRetries 0 delay
      (fun i hi hi' => hfail i (by omega))
    simpa [retryOperation, toErrorInstance] using this

/-- C5 witness: two concrete runs — failures then a final-attempt success, and
an always-failing operation whose `Error`-instance error is re-raised
unchanged — both with `maxRetries + 1 = 3` invocations. -/
theorem retryOperation_amended_witness :
    retryOperation (fun i => if i = 2 then .ok 42 else (.error (.errObj "transient") :
        Except ThrownValue Nat)) 2 100 2 30000 = (.ok 42, 3) ∧
    retryOperation (fun _ => (.error (.errObj "fatal") : Except ThrownValue Nat))
        2 100 2 30000 = (.error (.errObj "fatal"), 3) :=
  ⟨(retryOperation_amended _ 2 100 2 30000).1 42
      (fun i hi => ⟨.errObj "transient", by interval_cases i <;> decide⟩) (by decide),
   (retryOperation_amended _ 2 100 2 30000).2.2 "fatal" (fun i _ => rfl)⟩

/-- Helper for C7: dash-separated concatenation cancels when the left
components are dash-free. -/
theorem append_dash_inj : ∀ (a c b d : List Char), '-' ∉ a → '-' ∉ c →
    a ++ '-' :: b = c ++ '-' :: d → a = c ∧ b = d := by
  intro a
  induction a with
  | nil =>
    intro c b d _ hc h
    cases c with
    | nil => simpa using h
    | cons y ys =>
      simp only [List.nil_append, List.cons_append, List.cons.injEq] at h
      obtain ⟨h1, _⟩ := h
      subst h1
      exact absurd (List.mem_cons_self _ _) hc
  | cons x xs ih =>
    intro c b d ha hc h
    cases c with
    | nil =>
      simp only [List.cons_append, List.nil_append, List.cons.injEq] at h
      obtain ⟨h1, _⟩ := h
      subst h1
      exact absurd (List.mem_cons_self _ _) ha
    | cons y ys =>
      simp only [List.cons_append, List.cons.injEq] at h
      obtain ⟨rfl, h2⟩ := h
      have hr := ih ys b d (fun hm => ha (List.mem_cons_of_mem _ hm))
        (fun hm => hc (List.mem_cons_of_mem _ hm)) h2
      exact ⟨by rw [hr.1], hr.2⟩

/-- C7 (amended): `generateCacheKey` is deterministic (it is a pure function
of its three arguments — the embedding is a plain function, as is the source
body), and collision-free for distinct triples *provided the identifier and
the language contain no `-`* (the model component may contain dashes, as
`llama3-8b-8192` does); the counterexample shows collisions once the
identifier or language contains a dash. -/
theorem generateCacheKey_injective_amended :
    ∀ v₁ l₁ m₁ v₂ l₂ m₂ : String, '-' ∉ v₁.data → '-' ∉ l₁.data →
    '-' ∉ v₂.data → '-' ∉ l₂.data →
    generateCacheKey v₁ l₁ m₁ = generateCacheKey v₂ l₂ m₂ →
    v₁ = v₂ ∧ l₁ = l₂ ∧ m₁ = m₂ := by
  intro v₁ l₁ m₁ v₂ l₂ m₂ hv1 hl1 hv2 hl2 h
  have hdash : "-".data = ['-'] := rfl
  have hd := congrArg String.data h
  simp only [generateCacheKey, String.data_append, hdash, List.append_assoc,
    List.singleton_append] at hd
  have hd' := List.append_cancel_left hd
  obtain ⟨hv, hrest⟩ := append_dash_inj _ _ _ _ hv1 hv2 hd'
  obtain ⟨hl, hm⟩ := append_dash_inj _ _ _ _ hl1 hl2 hrest
  exact ⟨String.ext hv, String.ext hl, String.ext hm⟩

/-- C7 witness: the injectivity theorem applied at concrete dash-free
identifier/language components (the model, `gpt-5`, may contain a dash). -/
theorem generateCacheKey_injective_witness :
    ("abc" : String) = "abc" ∧ ("en" : String) = "en" ∧ ("gpt-5" : String) = "gpt-5" :=
  generateCacheKey_injective_amended "abc" "en" "gpt-5" "abc" "en" "gpt-5"
    (by decide) (by decide) (by decide) (by decide) rfl

/-- Helper: the head surviving a `dropWhile` fails the predicate. -/
theorem dropWhile_head_false (p : Char → Bool) :
    ∀ (cs : List Char) (c : Char) (r : List Char),
      cs.dropWhile p = c :: r → p c = false := by
  intro cs
  induction cs with
  | nil => intro c r h; simp [List.dropWhile] at h
  | cons x xs ih =>
    intro c r h
    rw [List.dropWhile_cons] at h
    by_cases hx : p x
    · rw [if_pos hx] at h
      exact ih c r h
    · rw [if_neg hx] at h
      cases h
      simpa using hx

/-- Helper for C2: the path produced by `splitPathQuery` on a remainder whose
head (if any) is an authority delimiter is empty or starts with `/`. -/
theorem splitPathQuery_shape (special : Bool) (rest : List Char)
    (hd : ∀ c r, rest = c :: r →
      (c == '/' || c == '?' || (special && c == '\\')) = true) :
    (splitPathQuery special rest).1 = [] ∨
      ∃ tail, (splitPathQuery special rest).1 = '/' :: tail := by
  match rest with
  | [] =>
    cases special
    · left; rfl
    · right; exact ⟨[], rfl⟩
  | '?' :: q =>
    cases special
    · left; rfl
    · right; exact ⟨[], rfl⟩
  | c :: r =>
    have hdelim := hd c r rfl
    by_cases hq : c = '?'
    · subst hq
      cases special
      · left; rfl
      · right; exact ⟨[], rfl⟩
    · have hpath : (c :: r).takeWhile (fun x => decide (x ≠ '?')) =
          c :: r.takeWhile (fun x => decide (x ≠ '?')) := by
        rw [List.takeWhile_cons]
        simp [hq]
      right
      have hc : c = '/' ∨ (special = true ∧ c = '\\') := by
        cases special <;> simp_all
      rcases hc with rfl | ⟨hs, rfl⟩
      · cases special <;> simp [splitPathQuery, hq, hpath]
      · subst hs
        simp [splitPathQuery, hq, hpath]

/-- Helper for C2: a parsed authority's pathname is empty or starts with
`/`. -/
theorem parseAuthority_pathname_shape (special allowEmpty : Bool) (cs : List Char)
    (u : JSUrl) (h : parseAuthority special allowEmpty cs = some u) :
    u.pathname.data = [] ∨ ∃ tail, u.pathname.data = '/' :: tail := by
  unfold parseAuthority at h
  dsimp only at h
  rw [Option.map_eq_some'] at h
  rcases h with ⟨host, hph, hu⟩
  subst hu
  have hshape := splitPathQuery_shape special
    (cs.dropWhile fun c => ¬ (c == '/' || c == '?' || (special && c == '\\')))
    (by
      intro c r hr
      have hf := dropWhile_head_false _ _ _ _ hr
      simp at hf ⊢
      tauto)
  simpa [ofList] using hshape

/-- Helper for C2: every URL accepted by the parser has an empty hostname
(opaque path) or a pathname that is empty or starts with `/`. -/
theorem parseURL_pathname_shape (url : String) (u : JSUrl)
    (h : parseURL url = some u) :
    u.hostname = "" ∨ u.pathname.data = [] ∨ ∃ tail, u.pathname.data = '/' :: tail := by
  unfold parseURL at h
  dsimp only at h
  cases hs : splitScheme (urlSanitize url.data) with
  | none => rw [hs] at h; simp at h
  | some sr =>
    rw [hs] at h
    simp only [Option.some_bind] at h
    by_cases hsp : sr.1 ∈ specialSchemes
    · rw [if_pos hsp] at h
      exact Or.inr (parseAuthority_pathname_shape _ _ _ _ h)
    · rw [if_neg hsp] at h
      split at h
      · exact Or.inr (parseAuthority_pathname_shape _ _ _ _ h)
      · simp only [Option.some.injEq] at h
        subst h
        left
        rfl

/-- C2 (amended): `extractVideoId` returns an identifier exactly for the two
recognized shapes — host exactly `youtu.be`, where the identifier is the full
path after the leading slash (`pathname.slice(1)`; equal to the claim's "first
path segment" only for single-segment paths), and hostnames containing
`youtube.com`, where it is the `v` query parameter (`none` when `v` is
absent); any other host or unparseable URL fails.  The claim's three examples
hold as stated. -/
theorem extractVideoId_amended :
    (∀ url, extractVideoId url = specResolveIdentifier url) ∧
    extractVideoId "https://youtu.be/dQw4w9WgXcQ" = some "dQw4w9WgXcQ" ∧
    extractVideoId "https://www.youtube.com/watch?v=dQw4w9WgXcQ" = some "dQw4w9WgXcQ" ∧
    extractVideoId "https://example.com/x" = none := by
  refine ⟨?_, by decide, by decide, by decide⟩
  intro url
  unfold extractVideoId specResolveIdentifier
  cases hp : parseURL url with
  | none => rfl
  | some u =>
    dsimp only
    by_cases hy : u.hostname = "youtu.be"
    · rw [if_pos hy, if_pos hy]
      rcases parseURL_pathname_shape url u hp with h0 | h1 | ⟨tail, ht⟩
      · rw [h0] at hy
        simp at hy
      · have hu : u.pathname = "" := String.ext h1
        rw [hu]
        rfl
      · have hu : u.pathname = ofList ('/' :: tail) := String.ext ht
        rw [hu]
        rfl
    · rw [if_neg hy, if_neg hy]

/-- Helper: `takeWhile` is the identity on lists all of whose elements satisfy
the predicate. -/
theorem takeWhile_all (p : Char → Bool) :
    ∀ cs : List Char, (∀ c ∈ cs, p c = true) → cs.takeWhile p = cs := by
  intro cs
  induction cs with
  | nil => intro _; rfl
  | cons x xs ih =>
    intro h
    rw [List.takeWhile_cons, if_pos (h x (List.mem_cons_self _ _))]
    rw [ih fun c hc => h c (List.mem_cons_of_mem _ hc)]

/-- Helper: `dropWhile` is the identity when the head fails the predicate. -/
theorem dropWhile_head_id (p : Char → Bool) (x : Char) (xs : List Char)
    (h : p x = false) : (x :: xs).dropWhile p = x :: xs := by
  rw [List.dropWhile_cons, if_neg (by simp [h])]

theorem digitVal_digitChar (d : Nat) (h : d < 10) : digitVal (digitChar d) = d := by
  interval_cases d <;> decide

theorem isDigitC_digitChar (d : Nat) (h : d < 10) : isDigitC (digitChar d) = true := by
  interval_cases d <;> decide

theorem digitChar_ne_colon (d : Nat) (h : d < 10) : digitChar d ≠ ':' := by
  interval_cases d <;> decide

/-- Helper: decimal digit characters are not whitespace, signs, or the hex
marker. -/
theorem isDigitC_excludes (c : Char) (h : isDigitC c = true) :
    jsWsChar c = false ∧ c ≠ '-' ∧ c ≠ '+' ∧ c ≠ 'x' ∧ c ≠ 'X' := by
  refine ⟨?_, ?_, ?_, ?_, ?_⟩
  · rw [jsWsChar, decide_eq_false_iff_not]
    intro hd
    rcases hd with rfl | rfl | rfl | rfl | rfl | rfl <;> revert h <;> decide
  all_goals (intro hc; subst hc; revert h; decide)

/-- Helper: every digit produced by `natDigitsRev` is below 10. -/
theorem natDigitsRev_lt : ∀ (f n d : Nat), d ∈ natDigitsRev f n → d < 10 := by
  intro f
  induction f with
  | zero => intro n d h; simp [natDigitsRev] at h
  | succ f ih =>
    intro n d h
    unfold natDigitsRev at h
    by_cases hn : n = 0
    · rw [if_pos hn] at h; simp at h
    · rw [if_neg hn] at h
      rcases List.mem_cons.mp h with rfl | hmem
      · exact Nat.mod_lt _ (by omega)
      · exact ih _ _ hmem

/-- Helper: the value accumulated over the rendered digits of `n`
(most-significant first) starting from `acc`. -/
theorem foldl_digits_value :
    ∀ (f n : Nat), n ≤ f → ∀ acc : Nat,
      List.foldl (fun a c => 10 * a + digitVal c) acc
          ((natDigitsRev f n).reverse.map digitChar) =
        acc * 10 ^ (natDigitsRev f n).length + n := by
  intro f
  induction f with
  | zero =>
    intro n hn acc
    have : n = 0 := by omega
    subst this
    simp [natDigitsRev]
  | succ f ih =>
    intro n hn acc
    by_cases hz : n = 0
    · subst hz
      simp [natDigitsRev]
    · have hstep : natDigitsRev (f + 1) n = n % 10 :: natDigitsRev f (n / 10) := by
        rw [natDigitsRev.eq_2, if_neg hz]
      have hdivle : n / 10 ≤ f := by
        have := Nat.div_lt_self (Nat.pos_of_ne_zero hz) (by omega : 1 < 10)
        omega
      rw [hstep]
      simp only [List.reverse_cons, List.map_append, List.map_cons, List.map_nil,
        List.foldl_append, List.foldl_cons, List.foldl_nil, List.length_cons]
      rw [ih (n / 10) hdivle acc]
      rw [digitVal_digitChar _ (Nat.mod_lt _ (by omega))]
      have hmod := Nat.div_add_mod n 10
      generalize (natDigitsRev f (n / 10)).length = L
      rw [pow_succ]
      ring_nf
      omega

/-- Helper: parsing back the decimal rendering recovers the value. -/
theorem decValue_natDecimalString (n : Nat) : decValue (natDecimalString n) = n := by
  by_cases hz : n = 0
  · subst hz; decide
  · unfold natDecimalString decValue
    rw [if_neg hz]
    simpa using foldl_digits_value n n (Nat.le_refl n) 0

/-- Helper: the decimal rendering is non-empty. -/
theorem natDecimalString_ne_nil (n : Nat) : natDecimalString n ≠ [] := by
  by_cases hz : n = 0
  · subst hz; decide
  · unfold natDecimalString
    rw [if_neg hz]
    intro h
    have hv := decValue_natDecimalString n
    unfold natDecimalString at hv
    rw [if_neg hz] at hv
    rw [h] at hv
    simp [decValue] at hv
    exact hz hv.symm

/-- Helper: every character of the decimal rendering is a digit. -/
theorem natDecimalString_digits (n : Nat) :
    ∀ c ∈ natDecimalString n, isDigitC c = true := by
  intro c hc
  unfold natDecimalString at hc
  by_cases hz : n = 0
  · rw [if_pos hz] at hc
    simp at hc
    subst hc
    decide
  · rw [if_neg hz] at hc
    simp only [List.mem_map, List.mem_reverse] at hc
    obtain ⟨d, hd, rfl⟩ := hc
    exact isDigitC_digitChar d (natDigitsRev_lt _ _ _ hd)

/-- Helper: a leading zero does not change `decValue`. -/
theorem decValue_cons_zero (l : List Char) : decValue ('0' :: l) = decValue l := by
  unfold decValue
  simp [List.foldl_cons, digitVal]

/-- Helper: `parseIntUnsigned` on a non-empty, all-digit list is its decimal
value (the `0x` branch cannot trigger, a digit being neither `x` nor `X`). -/
theorem parseIntUnsigned_digits (cs : List Char) (hne : cs ≠ [])
    (hd : ∀ c ∈ cs, isDigitC c = true) :
    parseIntUnsigned cs = some (decValue cs) := by
  have hdec : decRun cs = some (decValue cs) := by
    unfold decRun
    rw [takeWhile_all _ _ hd]
    simp [hne]
  rcases cs with _ | ⟨c0, _ | ⟨c1, rest⟩⟩
  · exact absurd rfl hne
  · exact hdec
  · have hx := hd c1 (List.mem_cons_of_mem _ (List.mem_cons_self _ _))
    rcases isDigitC_excludes c1 hx with ⟨_, _, _, hxx, hxX⟩
    unfold parseIntUnsigned
    dsimp only
    rw [if_neg (by simp [hxx, hxX])]
    exact hdec

/-- Helper: `bitLen` of zero is zero for any fuel. -/
theorem bitLen_zero (f : Nat) : bitLen f 0 = 0 := by
  cases f <;> simp [bitLen]

/-- Helper: with enough fuel, `bitLen` brackets a positive number between
consecutive powers of two. -/
theorem bitLen_bounds :
    ∀ (f m : Nat), m ≤ f → 1 ≤ m →
      1 ≤ bitLen f m ∧ 2 ^ (bitLen f m - 1) ≤ m ∧ m < 2 ^ bitLen f m := by
  intro f
  induction f with
  | zero => intro m hmf hm; omega
  | succ f ih =>
    intro m hmf hm
    rw [bitLen.eq_2, if_neg (by omega)]
    by_cases hm2 : m / 2 = 0
    · have hm1 : m = 1 := by omega
      subst hm1
      rw [hm2, bitLen_zero]
      norm_num
    · obtain ⟨ih1, ih2, ih3⟩ := ih (m / 2) (by omega) (by omega)
      refine ⟨by omega, ?_, ?_⟩
      · have h2b : 2 ^ bitLen f (m / 2) = 2 ^ (bitLen f (m / 2) - 1) * 2 := by
          rw [← pow_succ]
          congr 1
          omega
        have hdm : m / 2 * 2 ≤ m := Nat.div_mul_le_self m 2
        simp only [Nat.add_sub_cancel]
        omega
      · have h2b : 2 ^ (bitLen f (m / 2) + 1) = 2 ^ bitLen f (m / 2) * 2 :=
          pow_succ 2 _
        have hdm : m < m / 2 * 2 + 2 := by omega
        omega

/-- Helper: `bitLen` is determined by a power-of-two bracket. -/
theorem bitLen_eq (f v B : Nat) (hvf : v ≤ f) (hB : 1 ≤ B)
    (h1 : 2 ^ (B - 1) ≤ v) (h2 : v < 2 ^ B) : bitLen f v = B := by
  have hv1 : 1 ≤ v := le_trans Nat.one_le_two_pow h1
  obtain ⟨hb1, hb2, hb3⟩ := bitLen_bounds f v hvf hv1
  rcases Nat.lt_trichotomy (bitLen f v) B with hlt | heq | hgt
  · have hle : (2 : Nat) ^ bitLen f v ≤ 2 ^ (B - 1) :=
      Nat.pow_le_pow_right (by norm_num) (by omega)
    omega
  · exact heq
  · have hle : (2 : Nat) ^ B ≤ 2 ^ (bitLen f v - 1) :=
      Nat.pow_le_pow_right (by norm_num) (by omega)
    omega

/-- The rounding branch of `roundNat` with its `let`s expanded. -/
theorem roundNat_eq_big (m : Nat) (hm : ¬ m < 2 ^ 53) :
    roundNat m =
      (if 2 ^ (bitLen m m - 53 - 1) < m % 2 ^ (bitLen m m - 53) ∨
          (m % 2 ^ (bitLen m m - 53) = 2 ^ (bitLen m m - 53 - 1) ∧
            m / 2 ^ (bitLen m m - 53) % 2 = 1) then
        m / 2 ^ (bitLen m m - 53) + 1
      else m / 2 ^ (bitLen m m - 53)) * 2 ^ (bitLen m m - 53) := by
  unfold roundNat
  rw [if_neg hm]

/-- Helper: a 53-bit significand times a power of two is binary64-representable
and hence a fixed point of `roundNat`. -/
theorem roundNat_rep_fixed (s e : Nat) (h1 : 2 ^ 52 ≤ s) (h2 : s ≤ 2 ^ 53)
    (he : 1 ≤ e) : roundNat (s * 2 ^ e) = s * 2 ^ e := by
  have hepos : (0 : Nat) < 2 ^ e := pow_pos (by norm_num) e
  rcases Nat.lt_or_ge s (2 ^ 53) with hs | hs
  · have hv1 : 2 ^ (52 + e) ≤ s * 2 ^ e := by
      rw [pow_add]
      exact Nat.mul_le_mul_right _ h1
    have hv2 : s * 2 ^ e < 2 ^ (53 + e) := by
      rw [pow_add]
      exact (Nat.mul_lt_mul_right hepos).mpr hs
    have hbig : ¬ s * 2 ^ e < 2 ^ 53 := by
      have h53 : (2 : Nat) ^ 53 ≤ 2 ^ (52 + e) :=
        Nat.pow_le_pow_right (by norm_num) (by omega)
      omega
    have hB : bitLen (s * 2 ^ e) (s * 2 ^ e) = 53 + e :=
      bitLen_eq _ _ _ (le_refl _) (by omega)
        (by rw [show 53 + e - 1 = 52 + e by omega]; exact hv1) hv2
    rw [roundNat_eq_big _ hbig, hB, show 53 + e - 53 = e by omega]
    rw [Nat.mul_mod_left, Nat.mul_div_cancel _ hepos]
    rw [if_neg (by
      intro hc
      rcases hc with hc | ⟨hc, _⟩
      · exact absurd hc (Nat.not_lt_zero _)
      · have h1e : (1 : Nat) ≤ 2 ^ (e - 1) := Nat.one_le_two_pow
        omega)]
  · have hs53 : s = 2 ^ 53 := by omega
    subst hs53
    rw [← pow_add]
    have hbig : ¬ (2 : Nat) ^ (53 + e) < 2 ^ 53 := by
      have : (2 : Nat) ^ 53 ≤ 2 ^ (53 + e) :=
        Nat.pow_le_pow_right (by norm_num) (by omega)
      omega
    have hB : bitLen (2 ^ (53 + e)) (2 ^ (53 + e)) = 54 + e :=
      bitLen_eq _ _ _ (le_refl _) (by omega)
        (by rw [show 54 + e - 1 = 53 + e by omega])
        (Nat.pow_lt_pow_right (by norm_num) (by omega))
    rw [roundNat_eq_big _ hbig, hB, show 54 + e - 53 = e + 1 by omega]
    have hsplit : (2 : Nat) ^ (53 + e) = 2 ^ 52 * 2 ^ (e + 1) := by
      rw [← pow_add]
      congr 1
      omega
    rw [hsplit, Nat.mul_mod_left,
      Nat.mul_div_cancel _ (pow_pos (by norm_num) (e + 1))]
    rw [if_neg (by
      intro hc
      rcases hc with hc | ⟨hc, _⟩
      · exact absurd hc (Nat.not_lt_zero _)
      · have h1e : (1 : Nat) ≤ 2 ^ (e + 1 - 1) := Nat.one_le_two_pow
        omega)]

/-- Helper: `roundNat` is a projection — rounding a rounded value changes
nothing (the C8 idempotence argument hinges on this). -/
theorem roundNat_fixed (m : Nat) : roundNat (roundNat m) = roundNat m := by
  by_cases hs : m < 2 ^ 53
  · have hm : roundNat m = m := by
      unfold roundNat
      rw [if_pos hs]
    rw [hm, hm]
  · have hm1 : 1 ≤ m := by
      have h1 : (1 : Nat) ≤ 2 ^ 53 := Nat.one_le_two_pow
      omega
    obtain ⟨hb1, hb2, hb3⟩ := bitLen_bounds m m (le_refl m) hm1
    have hB54 : 54 ≤ bitLen m m := by
      by_contra hc
      push_neg at hc
      have : m < 2 ^ 53 :=
        lt_of_lt_of_le hb3 (Nat.pow_le_pow_right (by norm_num) (by omega))
      exact hs this
    rw [roundNat_eq_big m hs]
    refine roundNat_rep_fixed _ _ ?_ ?_ (by omega)
    · have hqlo : 2 ^ 52 ≤ m / 2 ^ (bitLen m m - 53) := by
        rw [Nat.le_div_iff_mul_le (pow_pos (by norm_num) _)]
        calc 2 ^ 52 * 2 ^ (bitLen m m - 53) = 2 ^ (52 + (bitLen m m - 53)) :=
              (pow_add 2 52 _).symm
          _ = 2 ^ (bitLen m m - 1) := by congr 1; omega
          _ ≤ m := hb2
      split <;> omega
    · have hqhi : m / 2 ^ (bitLen m m - 53) < 2 ^ 53 := by
        rw [Nat.div_lt_iff_lt_mul (pow_pos (by norm_num) _)]
        calc m < 2 ^ bitLen m m := hb3
          _ = 2 ^ 53 * 2 ^ (bitLen m m - 53) := by rw [← pow_add]; congr 1; omega
      split <;> omega

/-- Helper: any value `jsParseIntL` returns is binary64-representable — a
fixed point of `roundNat`. -/
theorem jsParseIntL_rounded (p : List Char) (n : Int)
    (h : jsParseIntL p = some n) : roundNat n.natAbs = n.natAbs := by
  unfold jsParseIntL at h
  cases hdw : p.dropWhile jsWsChar with
  | nil =>
    rw [hdw] at h
    rcases Option.map_eq_some'.mp h with ⟨k, _, hn⟩
    have hval : n.natAbs = roundNat k := by omega
    rw [hval, roundNat_fixed]
  | cons c rest =>
    rw [hdw] at h
    dsimp only at h
    split_ifs at h <;>
      (rcases Option.map_eq_some'.mp h with ⟨k, _, hn⟩
       have hval : n.natAbs = roundNat k := by omega
       rw [hval, roundNat_fixed])

/-- Helper: `jsParseIntL` on a non-empty all-digit list is its rounded
decimal value. -/
theorem jsParseIntL_digits (cs : List Char) (hne : cs ≠ [])
    (hd : ∀ c ∈ cs, isDigitC c = true) :
    jsParseIntL cs = some ((roundNat (decValue cs) : Nat) : Int) := by
  rcases cs with _ | ⟨c0, cs0⟩
  · exact absurd rfl hne
  · have h0 := hd c0 (List.mem_cons_self _ _)
    rcases isDigitC_excludes c0 h0 with ⟨hws, hminus, hplus, _, _⟩
    unfold jsParseIntL
    rw [dropWhile_head_id _ _ _ hws]
    dsimp only
    rw [if_neg hminus, if_neg hplus]
    rw [parseIntUnsigned_digits _ (by simp) hd]
    rfl

/-- Helper: leading zeros do not change the decimal value. -/
theorem decValue_replicate_zero :
    ∀ (k : Nat) (l : List Char), decValue (List.replicate k '0' ++ l) = decValue l := by
  intro k
  induction k with
  | zero => intro l; rfl
  | succ k ih =>
    intro l
    rw [List.replicate_succ, List.cons_append, decValue_cons_zero]
    exact ih l

/-- Helper for C8: parsing back the padded decimal rendering of a
binary64-representable integer (a fixed point of `roundNat`) recovers it
(`parseInt("07") = 7`, `parseInt("-5") = -5`, ...). -/
theorem jsParseIntL_padTwo_render (n : Int) (hfix : roundNat n.natAbs = n.natAbs) :
    jsParseIntL (padTwo (intDecimalString n)) = some n := by
  by_cases hneg : n < 0
  · have hpad : padTwo (intDecimalString n) = '-' :: natDecimalString n.natAbs := by
      unfold intDecimalString
      rw [if_pos hneg]
      unfold padTwo
      rw [if_neg]
      simp only [List.length_cons, not_lt]
      rcases hL : natDecimalString n.natAbs with _ | ⟨c, cs⟩
      · exact absurd hL (natDecimalString_ne_nil _)
      · simp
    rw [hpad]
    unfold jsParseIntL
    rw [dropWhile_head_id _ _ _ (by decide : jsWsChar '-' = false)]
    dsimp only
    rw [if_pos rfl]
    rw [parseIntUnsigned_digits _ (natDecimalString_ne_nil _) (natDecimalString_digits _)]
    rw [decValue_natDecimalString]
    show some (-((roundNat n.natAbs : Nat) : Int)) = some n
    rw [hfix]
    congr 1
    omega
  · have hren : intDecimalString n = natDecimalString n.natAbs := by
      unfold intDecimalString
      rw [if_neg hneg]
    rw [hren]
    have hpad : padTwo (natDecimalString n.natAbs) =
        List.replicate (2 - (natDecimalString n.natAbs).length) '0' ++
          natDecimalString n.natAbs := by
      unfold padTwo
      split
      · rfl
      · simp [show (2 - (natDecimalString n.natAbs).length) = 0 by omega]
    rw [hpad]
    rw [jsParseIntL_digits _ (by simp [natDecimalString_ne_nil n.natAbs])
      (by
        intro c hc
        rcases List.mem_append.mp hc with hrep | hmem
        · rw [List.eq_of_mem_replicate hrep]; decide
        · exact natDecimalString_digits _ c hmem)]
    rw [decValue_replicate_zero, decValue_natDecimalString, hfix]
    simp only [Option.some.injEq]
    omega

/-- Helper: padding with `0` preserves colon-freeness. -/
theorem colon_not_mem_padTwo (l : List Char) (h : ':' ∉ l) : ':' ∉ padTwo l := by
  unfold padTwo
  split
  · intro hm
    rcases List.mem_append.mp hm with hrep | hmem
    · exact absurd (List.eq_of_mem_replicate hrep) (by decide)
    · exact h hmem
  · exact h

/-- Helper: the decimal rendering of an integer contains no colon. -/
theorem colon_not_mem_intDecimalString (n : Int) : ':' ∉ intDecimalString n := by
  have hnat : ':' ∉ natDecimalString n.natAbs := by
    intro hm
    have := natDecimalString_digits n.natAbs ':' hm
    simp [isDigitC] at this
  unfold intDecimalString
  split
  · intro hm
    rcases List.mem_cons.mp hm with hdash | hmem
    · exact absurd hdash (by decide)
    · exact hnat hmem
  · exact hnat

/-- `normTimePart` when the component parses (and prints in plain decimal). -/
theorem normTimePart_parse_some (p : List Char) (n : Int)
    (hp : jsParseIntL p = some n) (hlt : n.natAbs < 10 ^ 21) :
    normTimePart p = padTwo (intDecimalString n) := by
  unfold normTimePart
  rw [hp]
  dsimp only
  unfold jsNumToString
  rw [if_pos hlt]

/-- `normTimePart` when the component does not parse (`"NaN"`). -/
theorem normTimePart_parse_none (p : List Char) (hp : jsParseIntL p = none) :
    normTimePart p = ['N', 'a', 'N'] := by
  unfold normTimePart
  rw [hp]
  decide

/-- Helper for C8: below the 1e21 threshold, one normalization pass fixes a
component for good. -/
theorem normTimePart_idem (p : List Char) (h : partBelowE21 p = true) :
    normTimePart (normTimePart p) = normTimePart p := by
  cases hp : jsParseIntL p with
  | none =>
    rw [normTimePart_parse_none p hp]
    decide
  | some n =>
    have hlt : n.natAbs < 10 ^ 21 := by
      unfold partBelowE21 at h
      rw [hp] at h
      simpa using h
    rw [normTimePart_parse_some p n hp hlt]
    exact normTimePart_parse_some _ n
      (jsParseIntL_padTwo_render n (jsParseIntL_rounded p n hp)) hlt

/-- Helper for C8: a normalized component contains no colon. -/
theorem colon_not_mem_normTimePart (p : List Char) (h : partBelowE21 p = true) :
    ':' ∉ normTimePart p := by
  cases hp : jsParseIntL p with
  | none =>
    rw [normTimePart_parse_none p hp]
    decide
  | some n =>
    have hlt : n.natAbs < 10 ^ 21 := by
      unfold partBelowE21 at h
      rw [hp] at h
      simpa using h
    rw [normTimePart_parse_some p n hp hlt]
    exact colon_not_mem_padTwo _ (colon_not_mem_intDecimalString n)

/-- Helper: splitting a separator-free list. -/
theorem splitOnCharL_no_sep (sep : Char) :
    ∀ cs : List Char, sep ∉ cs → splitOnCharL sep cs = [cs] := by
  intro cs
  induction cs with
  | nil => intro _; rfl
  | cons c rest ih =>
    intro h
    have hcne : ¬ c = sep := by
      intro hc
      subst hc
      exact h (List.mem_cons_self _ _)
    conv_lhs => unfold splitOnCharL
    rw [if_neg hcne, ih fun hm => h (List.mem_cons_of_mem _ hm)]

/-- Helper: splitting at an explicit separator after a separator-free chunk. -/
theorem splitOnCharL_append (sep : Char) :
    ∀ (a b : List Char), sep ∉ a →
      splitOnCharL sep (a ++ sep :: b) = a :: splitOnCharL sep b := by
  intro a
  induction a with
  | nil =>
    intro b _
    simp only [List.nil_append]
    conv_lhs => unfold splitOnCharL
    rw [if_pos rfl]
  | cons x xs ih =>
    intro b h
    have hxne : ¬ x = sep := by
      intro hx
      subst hx
      exact h (List.mem_cons_self _ _)
    simp only [List.cons_append]
    conv_lhs => unfold splitOnCharL
    rw [if_neg hxne, ih b fun hm => h (List.mem_cons_of_mem _ hm)]

/-- C8 (amended): `normalizeTimestamp` maps two `:`-separated parts to
zero-padded `MM:SS`, three to zero-padded `HH:MM:SS`, and passes any other
part count through unchanged (first conjunct: the claim's examples plus a
4-part pass-through), and it is idempotent *for every string whose components'
binary64 values — the exact parse after `parseInt`'s round-to-nearest-double
— are below 1e21*, the threshold where `Number.prototype.toString` switches
to exponential notation and idempotence genuinely fails.  The boundary is the
rounded value: 21 nines round to exactly 1e21 and are excluded, matching the
program (see the counterexample). -/
theorem normalizeTimestamp_amended :
    (normalizeTimestamp "02:05" = "02:05" ∧ normalizeTimestamp "2:5" = "02:05" ∧
      normalizeTimestamp "1:2:3" = "01:02:03" ∧
      normalizeTimestamp "1:2:3:4" = "1:2:3:4") ∧
    ∀ s : String, (∀ p ∈ splitOnCharL ':' s.data, partBelowE21 p = true) →
      normalizeTimestamp (normalizeTimestamp s) = normalizeTimestamp s := by
  refine ⟨by decide, ?_⟩
  intro s hs
  rcases hsplit : splitOnCharL ':' s.data with _ | ⟨p0, _ | ⟨p1, _ | ⟨p2, _ | ⟨p3, ps⟩⟩⟩⟩
  · have h1 : normalizeTimestamp s = s := by
      unfold normalizeTimestamp
      rw [hsplit]
    rw [h1]
    exact h1
  · have h1 : normalizeTimestamp s = s := by
      unfold normalizeTimestamp
      rw [hsplit]
    rw [h1]
    exact h1
  · have hmem0 : partBelowE21 p0 = true := hs p0 (by rw [hsplit]; exact List.mem_cons_self _ _)
    have hmem1 : partBelowE21 p1 = true := hs p1 (by rw [hsplit]; simp)
    have h1 : normalizeTimestamp s = ofList (normTimePart p0 ++ ':' :: normTimePart p1) := by
      unfold normalizeTimestamp
      rw [hsplit]
    have hsplit2 : splitOnCharL ':' (ofList (normTimePart p0 ++ ':' :: normTimePart p1)).data =
        [normTimePart p0, normTimePart p1] := by
      show splitOnCharL ':' (normTimePart p0 ++ ':' :: normTimePart p1) = _
      rw [splitOnCharL_append ':' _ _ (colon_not_mem_normTimePart p0 hmem0)]
      rw [splitOnCharL_no_sep ':' _ (colon_not_mem_normTimePart p1 hmem1)]
    have h2 : normalizeTimestamp (ofList (normTimePart p0 ++ ':' :: normTimePart p1)) =
        ofList (normTimePart (normTimePart p0) ++ ':' :: normTimePart (normTimePart p1)) := by
      unfold normalizeTimestamp
      rw [hsplit2]
    rw [h1, h2, normTimePart_idem p0 hmem0, normTimePart_idem p1 hmem1]
  · have hmem0 : partBelowE21 p0 = true := hs p0 (by rw [hsplit]; exact List.mem_cons_self _ _)
    have hmem1 : partBelowE21 p1 = true := hs p1 (by rw [hsplit]; simp)
    have hmem2 : partBelowE21 p2 = true := hs p2 (by rw [hsplit]; simp)
    have h1 : normalizeTimestamp s =
        ofList (normTimePart p0 ++ ':' :: normTimePart p1 ++ ':' :: normTimePart p2) := by
      unfold normalizeTimestamp
      rw [hsplit]
    have hsplit2 : splitOnCharL ':'
        (ofList (normTimePart p0 ++ ':' :: normTimePart p1 ++ ':' :: normTimePart p2)).data =
        [normTimePart p0, normTimePart p1, normTimePart p2] := by
      show splitOnCharL ':'
        (normTimePart p0 ++ ':' :: normTimePart p1 ++ ':' :: normTimePart p2) = _
      rw [List.append_assoc, List.cons_append]
      rw [splitOnCharL_append ':' _ _ (colon_not_mem_normTimePart p0 hmem0)]
      rw [splitOnCharL_append ':' _ _ (colon_not_mem_normTimePart p1 hmem1)]
      rw [splitOnCharL_no_sep ':' _ (colon_not_mem_normTimePart p2 hmem2)]
    have h2 : normalizeTimestamp
        (ofList (normTimePart p0 ++ ':' :: normTimePart p1 ++ ':' :: normTimePart p2)) =
        ofList (normTimePart (normTimePart p0) ++ ':' :: normTimePart (normTimePart p1) ++
          ':' :: normTimePart (normTimePart p2)) := by
      unfold normalizeTimestamp
      rw [hsplit2]
    rw [h1, h2, normTimePart_idem p0 hmem0, normTimePart_idem p1 hmem1,
      normTimePart_idem p2 hmem2]
  · have h1 : normalizeTimestamp s = s := by
      unfold normalizeTimestamp
      rw [hsplit]
    rw [h1]
    exact h1

/-- C8 witness: the idempotence part applied at `"2:5"` (both components parse
far below 1e21). -/
theorem normalizeTimestamp_amended_witness :
    normalizeTimestamp (normalizeTimestamp "2:5") = normalizeTimestamp "2:5" :=
  normalizeTimestamp_amended.2 "2:5" (by decide)
